import Mathlib

/-!
Bit-operation overloads for enumerated types (`common/main/d_bit_enum.h`)

A shallow embedding of the operator templates of `d_bit_enum.h`.

* Integer types are `bool` and the fixed-width signed and unsigned types of
  `<cstdint>` (8, 16, 32 and 64 bits, two's complement, `int` being 32 bits
  wide).  A value of an integer type is the mathematical integer it denotes
  (`false` is 0 and `true` is 1); a conversion to a fixed-width type reduces
  modulo `2 ^ bits`, a conversion to `bool` gives `false` for zero and `true` for
  every other value.
* An enumerated type is a scoped enumeration with a fixed underlying type; its
  values are exactly the values of the underlying type.
* Every operator template is embedded as two definitions: its body, a total
  function on values, and its `requires` clause, a boolean function of the
  operand types and of the explicit specialisations present in the program.
* The class template `player_selected_weapon<T>` of `common/main/fwd-weapon.h` is
  embedded as a structure with its two data members; a member function that
  writes the object returns the object after the call.
-/

namespace dcx

/-! ## Integer types -/

/-- Widths of the fixed-width integer types. -/
inductive Width where
  | w8
  | w16
  | w32
  | w64
deriving DecidableEq, Repr

/-- Number of bits of a width. -/
def Width.bits : Width → Nat
  | .w8 => 8
  | .w16 => 16
  | .w32 => 32
  | .w64 => 64

/-- An integer type: `bool`, or a type given by its signedness and width. -/
inductive IntType where
  | bool
  | int (isSigned : Bool) (width : Width)
deriving DecidableEq, Repr

/-- The type is a signed integer type. -/
def IntType.isSigned : IntType → Bool
  | .bool => false
  | .int isSigned _ => isSigned

/-- Number of value bits plus sign bit; `bool` has one value bit. -/
def IntType.bits : IntType → Nat
  | .bool => 1
  | .int _ width => width.bits

/-- Smallest value of the type. -/
def IntType.minVal (T : IntType) : Int :=
  if T.isSigned then -(2 ^ (T.bits - 1)) else 0

/-- Largest value of the type. -/
def IntType.maxVal (T : IntType) : Int :=
  if T.isSigned then 2 ^ (T.bits - 1) - 1 else 2 ^ T.bits - 1

/-- The integer `v` is a value of the type `T`. -/
def IntType.InRange (T : IntType) (v : Int) : Prop :=
  T.minVal ≤ v ∧ v ≤ T.maxVal

instance (T : IntType) (v : Int) : Decidable (T.InRange v) := by
  unfold IntType.InRange
  exact inferInstance

/-- Integral conversion to `T`.  For `bool`: zero becomes `false`, every other
value `true`.  For the other types: the unique value of `T` congruent to `v`
modulo `2 ^ bits`. -/
def IntType.wrap (T : IntType) (v : Int) : Int :=
  if T = .bool then (if v = 0 then 0 else 1)
  else if T.isSigned then (v + 2 ^ (T.bits - 1)) % 2 ^ T.bits - 2 ^ (T.bits - 1)
  else v % 2 ^ T.bits

/-- The bit pattern of `v` at the width of `T`, as a natural number. -/
def IntType.pattern (T : IntType) (v : Int) : Nat := (v % 2 ^ T.bits).toNat

def int8_t : IntType := .int true .w8
def uint8_t : IntType := .int false .w8
def int16_t : IntType := .int true .w16
def uint16_t : IntType := .int false .w16
def int32_t : IntType := .int true .w32
def uint32_t : IntType := .int false .w32
def int64_t : IntType := .int true .w64
def uint64_t : IntType := .int false .w64

/-- Integral promotion: a type narrower than `int` promotes to `int`, any other
type is unchanged. -/
def IntType.promote (T : IntType) : IntType :=
  if T.bits < 32 then int32_t else T

/-- Usual arithmetic conversions on two promoted types: the common type of a
binary operator. -/
def usual_arithmetic (A B : IntType) : IntType :=
  if A = B then A
  else if A.isSigned = B.isSigned then (if A.bits < B.bits then B else A)
  else
    let U := if A.isSigned then B else A
    let S := if A.isSigned then A else B
    if S.bits ≤ U.bits then U else S

/-- A prvalue of integer type. -/
structure Prvalue where
  ty : IntType
  val : Int
deriving DecidableEq, Repr

/-- The expression `static_cast<T>(x)` for an integer type `T`. -/
def Prvalue.cast (T : IntType) (x : Prvalue) : Prvalue := ⟨T, T.wrap x.val⟩

/-- Integral promotion of an operand. -/
def Prvalue.promoted (x : Prvalue) : Prvalue := x.cast x.ty.promote

/-- The built-in `~x`: the operand is promoted and every bit of the promoted
type is complemented. -/
def Prvalue.compl (x : Prvalue) : Prvalue :=
  let p := x.promoted
  ⟨p.ty, p.ty.wrap (Int.lnot p.val)⟩

/-- The built-in `x & y`: both operands are promoted and converted to the common
type, where the bit patterns are and-ed. -/
def Prvalue.band (x y : Prvalue) : Prvalue :=
  let p := x.promoted
  let q := y.promoted
  let C := usual_arithmetic p.ty q.ty
  ⟨C, Int.land (C.wrap p.val) (C.wrap q.val)⟩

/-- The built-in `x | y`. -/
def Prvalue.bor (x y : Prvalue) : Prvalue :=
  let p := x.promoted
  let q := y.promoted
  let C := usual_arithmetic p.ty q.ty
  ⟨C, Int.lor (C.wrap p.val) (C.wrap q.val)⟩

/-- The built-in `!x`: true exactly when the promoted operand is zero. -/
def Prvalue.lnot (x : Prvalue) : Bool := decide (x.promoted.val = 0)

/-! ## Enumerated types and their values -/

/-- A scoped enumeration: the identity of its declaration and its fixed
underlying type. -/
structure EnumType where
  id : Nat
  underlying : IntType
deriving DecidableEq, Repr

/-- Integral conversion to `T`, together with the fact that the converted
value is a value of `T`. -/
def IntType.convert (T : IntType) (v : Int) : { x : Int // T.InRange x } :=
  ⟨T.wrap v, by
    rcases T with _ | ⟨_ | _, _ | _ | _ | _⟩ <;>
      simp [IntType.InRange, IntType.wrap, IntType.minVal, IntType.maxVal, IntType.bits,
        IntType.isSigned, Width.bits] <;>
      omega⟩

/-- A value of the enumerated type `E`: a value of its underlying type. -/
structure EnumVal (E : EnumType) where
  val : Int
  inRange : E.underlying.InRange val
deriving DecidableEq

/-- The expression `static_cast<std::underlying_type_t<E>>(e)`. -/
def EnumVal.to_underlying {E : EnumType} (e : EnumVal E) : Prvalue := ⟨E.underlying, e.val⟩

/-- The expression `static_cast<E>(x)`: `x` is converted to the underlying
type of `E`. -/
def EnumVal.cast (E : EnumType) (x : Prvalue) : EnumVal E :=
  ⟨(E.underlying.convert x.val).1, (E.underlying.convert x.val).2⟩

/-- The expression `E{n}` for a literal `n` that fits the underlying type. -/
def EnumVal.lit (E : EnumType) (n : Int) (h : E.underlying.InRange n) : EnumVal E :=
  ⟨n, h⟩

/-- The local struct `result` of `operator~(enum_type)`, with
`original_type = enum_type`.  Its only member `value` has the enumerated type
`result::bitnot`, whose underlying type is that of `enum_type`. -/
structure result (enum_type : EnumType) where
  value : Int
  inRange : enum_type.underlying.InRange value
deriving DecidableEq

/-- The expression `static_cast<std::underlying_type_t<original_type>>(t.value)`. -/
def result.to_underlying {enum_type : EnumType} (t : result enum_type) : Prvalue :=
  ⟨enum_type.underlying, t.value⟩

/-- The expression `result{.value{static_cast<result::bitnot>(x)}}`. -/
def result.cast (enum_type : EnumType) (x : Prvalue) : result enum_type :=
  ⟨(enum_type.underlying.convert x.val).1, (enum_type.underlying.convert x.val).2⟩

/-- Memory holding objects of the enumerated type `E`, indexed by address. -/
def Store (E : EnumType) : Type := Nat → EnumVal E

/-- Write `v` to the object at address `a`. -/
def Store.write {E : EnumType} (σ : Store E) (a : Nat) (v : EnumVal E) : Store E :=
  fun b => if b = a then v else σ b

/-! ## Operator bodies -/

/-- Body of `operator~(const enum_type e)`. -/
def operator_bitnot {enum_type : EnumType} (e : EnumVal enum_type) : result enum_type :=
  result.cast enum_type (Prvalue.cast enum_type.underlying (Prvalue.compl e.to_underlying))

/-- Body of `operator~(const T t)` for `T` the struct returned by the overload
above. -/
def operator_bitnot_result {original_type : EnumType} (t : result original_type) :
    EnumVal original_type :=
  EnumVal.cast original_type (Prvalue.compl t.to_underlying)

/-- Body of `operator!(const enum_type e)`. -/
def operator_boolnot {enum_type : EnumType} (e : EnumVal enum_type) : Bool :=
  Prvalue.lnot e.to_underlying

/-- Body of `operator+(const enum_type e)`; the deduced return type is the
underlying type. -/
def operator_plus {enum_type : EnumType} (e : EnumVal enum_type) : Prvalue :=
  e.to_underlying

/-- Body of `operator&(const lhs_type lhs, const rhs_type rhs)` for two
enumerated types. -/
def operator_and {lhs_type rhs_type : EnumType} (lhs : EnumVal lhs_type)
    (rhs : EnumVal rhs_type) : EnumVal lhs_type :=
  EnumVal.cast lhs_type (Prvalue.band lhs.to_underlying rhs.to_underlying)

/-- Body of `operator&(const lhs_type lhs, const rhs_type rhs)` for `rhs_type`
the struct returned by `operator~(original_type)`. -/
def operator_and_result {lhs_type original_type : EnumType} (lhs : EnumVal lhs_type)
    (rhs : result original_type) : EnumVal lhs_type :=
  EnumVal.cast lhs_type (Prvalue.band lhs.to_underlying rhs.to_underlying)

/-- Body of `operator&=(lhs_type &lhs, const rhs_type rhs)` for an enumerated
`rhs_type`: `lhs` is the address of the left operand, and the returned pair is
the memory after the call and the address the returned reference denotes. -/
def operator_and_assign {lhs_type rhs_type : EnumType} (σ : Store lhs_type) (lhs : Nat)
    (rhs : EnumVal rhs_type) : Store lhs_type × Nat :=
  (σ.write lhs (operator_and (σ lhs) rhs), lhs)

/-- Body of `operator&=(lhs_type &lhs, const rhs_type rhs)` for `rhs_type` the
struct returned by `operator~(original_type)`. -/
def operator_and_assign_result {lhs_type original_type : EnumType} (σ : Store lhs_type)
    (lhs : Nat) (rhs : result original_type) : Store lhs_type × Nat :=
  (σ.write lhs (operator_and_result (σ lhs) rhs), lhs)

/-- Body of `operator|(const lhs_type lhs, const rhs_type rhs)`. -/
def operator_or {lhs_type rhs_type : EnumType} (lhs : EnumVal lhs_type)
    (rhs : EnumVal rhs_type) : EnumVal lhs_type :=
  EnumVal.cast lhs_type (Prvalue.bor lhs.to_underlying rhs.to_underlying)

/-- Body of `operator|=(lhs_type &lhs, const rhs_type rhs)`. -/
def operator_or_assign {lhs_type rhs_type : EnumType} (σ : Store lhs_type) (lhs : Nat)
    (rhs : EnumVal rhs_type) : Store lhs_type × Nat :=
  (σ.write lhs (operator_or (σ lhs) rhs), lhs)

/-! ## Capability predicates and `requires` clauses -/

/-- The operand types of the operator templates: an enumerated type, or the
struct returned by `operator~` for the enumerated type `original_type`. -/
inductive Ty where
  | enum (E : EnumType)
  | bitnot_result (original_type : EnumType)
deriving DecidableEq, Repr

/-- The specialisations of the capability variable templates that a program
declares: `none` where the primary template applies. -/
structure Specializations where
  bit_enum : EnumType → Ty → Option Bool
  bitnot : EnumType → Option Bool
  boolnot : EnumType → Option Bool
  bit_and : EnumType → Ty → Option Bool
  bit_or : EnumType → EnumType → Option Bool

/-- The variable template `enable_bit_enum<lhs_type, rhs_type>`: `false` unless
specialised. -/
def enable_bit_enum (s : Specializations) (lhs_type : EnumType) (rhs_type : Ty) : Bool :=
  (s.bit_enum lhs_type rhs_type).getD false

/-- The variable template `enable_bit_enum_bitnot<enum_type>`. -/
def enable_bit_enum_bitnot (s : Specializations) (enum_type : EnumType) : Bool :=
  (s.bitnot enum_type).getD (enable_bit_enum s enum_type (.enum enum_type))

/-- The variable template `enable_bit_enum_boolnot<enum_type>`. -/
def enable_bit_enum_boolnot (s : Specializations) (enum_type : EnumType) : Bool :=
  (s.boolnot enum_type).getD (enable_bit_enum s enum_type (.enum enum_type))

/-- The variable template `enable_bit_enum_and<lhs_type, rhs_type>` for an
enumerated `rhs_type`, which has no member `original_type`. -/
def enable_bit_enum_and_enum (s : Specializations) (lhs_type rhs_type : EnumType) : Bool :=
  (s.bit_and lhs_type (.enum rhs_type)).getD (enable_bit_enum s lhs_type (.enum rhs_type))

/-- The variable template `enable_bit_enum_and<lhs_type, rhs_type>`. -/
def enable_bit_enum_and (s : Specializations) (lhs_type : EnumType) : Ty → Bool
  | .enum rhs_type => enable_bit_enum_and_enum s lhs_type rhs_type
  | .bitnot_result original_type =>
    (s.bit_and lhs_type (.bitnot_result original_type)).getD
      (enable_bit_enum s lhs_type (.bitnot_result original_type) ||
        (enable_bit_enum_bitnot s original_type &&
          enable_bit_enum_and_enum s lhs_type original_type))

/-- The variable template `enable_bit_enum_or<lhs_type, rhs_type>`, declared for
enumerated types only. -/
def enable_bit_enum_or (s : Specializations) (lhs_type rhs_type : EnumType) : Bool :=
  (s.bit_or lhs_type rhs_type).getD (enable_bit_enum s lhs_type (.enum rhs_type))

/-- The requirement `lhs_type{static_cast<std::underlying_type_t<rhs_type>>(rhs)}`
for a non-constant `rhs`: the list-initialisation is well-formed when the
conversion is not narrowing, that is when the underlying type of `lhs_type` can
represent every value of the underlying type of `rhs_type`. -/
def list_init_from (lhs_type rhs_type : EnumType) : Bool :=
  decide (lhs_type.underlying.minVal ≤ rhs_type.underlying.minVal ∧
    rhs_type.underlying.maxVal ≤ lhs_type.underlying.maxVal)

/-- The `requires` clause of `operator~(const enum_type e)`. -/
def has_bit_not_enum (s : Specializations) (enum_type : EnumType) : Bool :=
  enable_bit_enum_bitnot s enum_type

/-- The expression `~x` is well-formed for `x` of type `T`: one of the two
`operator~` overloads accepts the operand type. -/
def has_bit_not (s : Specializations) : Ty → Bool
  | .enum enum_type => has_bit_not_enum s enum_type
  | .bitnot_result original_type =>
    enable_bit_enum_bitnot s original_type && has_bit_not_enum s original_type

/-- The expression `!x` is well-formed for `x` of type `T`. -/
def has_bool_not (s : Specializations) : Ty → Bool
  | .enum enum_type => enable_bit_enum_boolnot s enum_type
  | .bitnot_result _ => false

/-- The expression `+x` is well-formed for `x` of type `T`. -/
def has_unary_plus (s : Specializations) : Ty → Bool
  | .enum enum_type => enable_bit_enum_boolnot s enum_type
  | .bitnot_result _ => false

/-- The `requires` clause of `operator&` for two enumerated types. -/
def has_bit_and_enum (s : Specializations) (lhs_type rhs_type : EnumType) : Bool :=
  enable_bit_enum_and s lhs_type (.enum rhs_type) && list_init_from lhs_type rhs_type

/-- The expression `lhs & rhs` is well-formed: one of the two `operator&`
overloads accepts the operand types. -/
def has_bit_and (s : Specializations) : Ty → Ty → Bool
  | .enum lhs_type, .enum rhs_type => has_bit_and_enum s lhs_type rhs_type
  | .enum lhs_type, .bitnot_result original_type =>
    enable_bit_enum_and s lhs_type (.enum original_type) &&
      has_bit_and_enum s lhs_type original_type
  | .bitnot_result _, _ => false

/-- The expression `lhs &= rhs` is well-formed; `operator&` returns `lhs_type`
whenever it is available. -/
def has_bit_and_assign (s : Specializations) : Ty → Ty → Bool
  | .enum lhs_type, rhs_type =>
    enable_bit_enum_and s lhs_type rhs_type && has_bit_and s (.enum lhs_type) rhs_type
  | .bitnot_result _, _ => false

/-- The expression `lhs | rhs` is well-formed. -/
def has_bit_or (s : Specializations) : Ty → Ty → Bool
  | .enum lhs_type, .enum rhs_type =>
    enable_bit_enum_or s lhs_type rhs_type && list_init_from lhs_type rhs_type
  | _, _ => false

/-- The expression `lhs |= rhs` is well-formed; `operator|` returns `lhs_type`
whenever it is available. -/
def has_bit_or_assign (s : Specializations) : Ty → Ty → Bool
  | .enum lhs_type, .enum rhs_type =>
    enable_bit_enum_or s lhs_type rhs_type && has_bit_or s (.enum lhs_type) (.enum rhs_type)
  | _, _ => false

/-! ## The compile-time test types of the header -/

namespace unit_test_detail

def e8_bitnot : EnumType := ⟨0, uint8_t⟩
def e8_boolnot : EnumType := ⟨1, uint8_t⟩
def e16_bitand_composite : EnumType := ⟨2, uint16_t⟩
def e16_bitand_flag : EnumType := ⟨3, uint16_t⟩
def e32_bitand_flag : EnumType := ⟨4, uint32_t⟩
def e16_bitor_composite : EnumType := ⟨5, uint16_t⟩
def e16_bitor_flag : EnumType := ⟨6, uint16_t⟩
def e32_bitor_flag : EnumType := ⟨7, uint32_t⟩

/-- The explicit specialisations declared under
`DXX_ENABLE_BIT_ENUM_COMPILE_TESTS`. -/
def specializations : Specializations where
  bit_enum := fun _ _ => none
  bitnot := fun E => if E = e8_bitnot ∨ E = e16_bitand_flag then some true else none
  boolnot := fun E => if E = e8_boolnot then some true else none
  bit_and := fun L R =>
    if L = e16_bitand_composite ∧ (R = .enum e16_bitand_flag ∨ R = .enum e32_bitand_flag)
    then some true else none
  bit_or := fun L R =>
    if L = e16_bitor_composite ∧ (R = e16_bitor_flag ∨ R = e32_bitor_flag)
    then some true else none

end unit_test_detail

/-! ## Types of expressions, and programs built from specialisations -/

/-- The member type `T::original_type`, for the operand types that have one. -/
def Ty.original_type : Ty → Option EnumType
  | .enum _ => none
  | .bitnot_result original_type => some original_type

/-- The type of the expression `~x` for `x` of type `T`, where it is
well-formed: `operator~(const enum_type e)` returns its local struct `result`,
and `operator~(const T t)` returns `T::original_type`. -/
def bitnot_type (s : Specializations) : Ty → Option Ty
  | .enum enum_type =>
    if has_bit_not_enum s enum_type then some (.bitnot_result enum_type) else none
  | .bitnot_result original_type =>
    if enable_bit_enum_bitnot s original_type && has_bit_not_enum s original_type
    then some (.enum original_type) else none

/-- The expression `lhs & ~rhs` is well-formed for `lhs` of type `lhs_type` and
`rhs` of type `rhs_type`. -/
def has_bit_and_not (s : Specializations) (lhs_type rhs_type : Ty) : Bool :=
  match bitnot_type s rhs_type with
  | some T => has_bit_and s lhs_type T
  | none => false

/-- The expression `lhs | ~rhs` is well-formed for `lhs` of type `lhs_type` and
`rhs` of type `rhs_type`. -/
def has_bit_or_not (s : Specializations) (lhs_type rhs_type : Ty) : Bool :=
  match bitnot_type s rhs_type with
  | some T => has_bit_or s lhs_type T
  | none => false

/-- Contextual conversion of an integer prvalue to `bool`, as in `if (x)`. -/
def Prvalue.to_bool (x : Prvalue) : Bool := decide (x.val ≠ 0)

/-- A program that declares no specialisation. -/
def no_specializations : Specializations where
  bit_enum := fun _ _ => none
  bitnot := fun _ => none
  boolnot := fun _ => none
  bit_and := fun _ _ => none
  bit_or := fun _ _ => none

/-- The program `s` with the declaration
`template <> inline constexpr bool enable_bit_enum<L, R>{b};` added. -/
def specialize_bit_enum (s : Specializations) (L : EnumType) (R : Ty) (b : Bool) :
    Specializations where
  bit_enum := fun l r => if l = L ∧ r = R then some b else s.bit_enum l r
  bitnot := s.bitnot
  boolnot := s.boolnot
  bit_and := s.bit_and
  bit_or := s.bit_or

/-- The program `s` with the declaration
`template <> inline constexpr bool enable_bit_enum_bitnot<E>{b};` added. -/
def specialize_bitnot (s : Specializations) (E : EnumType) (b : Bool) : Specializations where
  bit_enum := s.bit_enum
  bitnot := fun e => if e = E then some b else s.bitnot e
  boolnot := s.boolnot
  bit_and := s.bit_and
  bit_or := s.bit_or

/-- The program `s` with the declaration
`template <> inline constexpr bool enable_bit_enum_boolnot<E>{b};` added. -/
def specialize_boolnot (s : Specializations) (E : EnumType) (b : Bool) : Specializations where
  bit_enum := s.bit_enum
  bitnot := s.bitnot
  boolnot := fun e => if e = E then some b else s.boolnot e
  bit_and := s.bit_and
  bit_or := s.bit_or

/-- The program `s` with the declaration
`template <> inline constexpr bool enable_bit_enum_and<L, R>{b};` added. -/
def specialize_and (s : Specializations) (L : EnumType) (R : Ty) (b : Bool) :
    Specializations where
  bit_enum := s.bit_enum
  bitnot := s.bitnot
  boolnot := s.boolnot
  bit_and := fun l r => if l = L ∧ r = R then some b else s.bit_and l r
  bit_or := s.bit_or

/-- The program `s` with the declaration
`template <> inline constexpr bool enable_bit_enum_or<L, R>{b};` added. -/
def specialize_or (s : Specializations) (L R : EnumType) (b : Bool) : Specializations where
  bit_enum := s.bit_enum
  bitnot := s.bitnot
  boolnot := s.boolnot
  bit_and := s.bit_and
  bit_or := fun l r => if l = L ∧ r = R then some b else s.bit_or l r

/-! ## Enumerated types of other widths, used as concrete inputs -/

namespace example_types

def e32_composite : EnumType := ⟨8, uint32_t⟩
def e16_flag : EnumType := ⟨9, uint16_t⟩
def e16_composite : EnumType := ⟨10, uint16_t⟩
def e32_flag : EnumType := ⟨11, uint32_t⟩
def e16_self : EnumType := ⟨12, uint16_t⟩

/-- A program enabling bit-not for `e16_flag` and bit-and for
`(e32_composite, e16_flag)`. -/
def wide_composite : Specializations :=
  specialize_and (specialize_bitnot no_specializations e16_flag true)
    e32_composite (.enum e16_flag) true

/-- A program enabling bit-not for `e16_flag` and bit-and for
`(e16_composite, e16_flag)`, and disabling bit-and for `e16_composite` and the
struct returned by `~e16_flag`. -/
def assign_disabled : Specializations :=
  specialize_and
    (specialize_and (specialize_bitnot no_specializations e16_flag true)
      e16_composite (.enum e16_flag) true)
    e16_composite (.bitnot_result e16_flag) false

/-- A program whose only specialisation is `enable_bit_enum<e16_composite, e32_flag>{true}`. -/
def base_narrowing : Specializations :=
  specialize_bit_enum no_specializations e16_composite (.enum e32_flag) true

/-- A program whose only specialisation is `enable_bit_enum<e16_self, e16_self>{true}`. -/
def base_self : Specializations :=
  specialize_bit_enum no_specializations e16_self (.enum e16_self) true

def e_bool : EnumType := ⟨13, .bool⟩
def e8_composite : EnumType := ⟨14, uint8_t⟩

/-- A program enabling bit-not for `e_bool`, whose underlying type is `bool`,
and bit-and for `(e8_composite, e_bool)`. -/
def bool_flag : Specializations :=
  specialize_and (specialize_bitnot no_specializations e_bool true)
    e8_composite (.enum e_bool) true

/-- The header's test program with
`enable_bit_enum_bitnot<unit_test_detail::e32_bitand_flag>{true}` added. -/
def narrowing_negated : Specializations :=
  specialize_bitnot unit_test_detail.specializations unit_test_detail.e32_bitand_flag true

end example_types

/-! ## The selected weapon of a player (`common/main/fwd-weapon.h`) -/

/-- The class template `player_selected_weapon<T>`: the two data members
`active` and `delayed`. -/
structure player_selected_weapon (T : Type) where
  active : T
  delayed : T

/-- The member function `get_active() const`. -/
def player_selected_weapon.get_active {T : Type} (self : player_selected_weapon T) : T :=
  self.active

/-- The member function `get_delayed() const`. -/
def player_selected_weapon.get_delayed {T : Type} (self : player_selected_weapon T) : T :=
  self.delayed

/-- The conversion function `operator T() const`. -/
def player_selected_weapon.operator_T {T : Type} (self : player_selected_weapon T) : T :=
  self.get_active

/-- The member function `set_delayed(T v)`: the object after the call. -/
def player_selected_weapon.set_delayed {T : Type} (self : player_selected_weapon T) (v : T) :
    player_selected_weapon T :=
  ⟨self.active, v⟩

/-- The member function `operator=(T v)`: the object after the call, which is
the object the returned reference `*this` denotes. -/
def player_selected_weapon.operator_assign {T : Type} (self : player_selected_weapon T)
    (v : T) : player_selected_weapon T :=
  player_selected_weapon.set_delayed ⟨v, self.delayed⟩ v

/-! ## Auxiliary facts about the integer model -/

theorem lnot_eq (v : Int) : Int.lnot v = -v - 1 := by
  cases v with
  | ofNat n => simp only [Int.lnot, Int.ofNat_eq_coe, Int.negSucc_eq]; omega
  | negSucc n => simp only [Int.lnot, Int.negSucc_eq]; omega

theorem EnumVal.eq_of_val {E : EnumType} {a b : EnumVal E} (h : a.val = b.val) : a = b := by
  cases a; cases b; simp_all

theorem result.eq_of_value {E : EnumType} {a b : result E} (h : a.value = b.value) : a = b := by
  cases a; cases b; simp_all

theorem operator_bitnot_value {E : EnumType} (hE : E.underlying ≠ .bool) (e : EnumVal E) :
    (operator_bitnot e).value = E.underlying.minVal + E.underlying.maxVal - e.val := by
  rcases e with ⟨v, hv⟩
  rcases E with ⟨i, _ | ⟨_ | _, _ | _ | _ | _⟩⟩ <;>
    simp [operator_bitnot, result.cast, IntType.convert, Prvalue.cast, Prvalue.compl,
      Prvalue.promoted, EnumVal.to_underlying, IntType.promote, IntType.wrap, IntType.bits,
      IntType.isSigned, Width.bits, int32_t, lnot_eq, IntType.InRange, IntType.minVal,
      IntType.maxVal] at hv hE ⊢ <;>
    omega

theorem operator_bitnot_result_val {E : EnumType} (hE : E.underlying ≠ .bool)
    (t : result E) :
    (operator_bitnot_result t).val = E.underlying.minVal + E.underlying.maxVal - t.value := by
  rcases t with ⟨v, hv⟩
  rcases E with ⟨i, _ | ⟨_ | _, _ | _ | _ | _⟩⟩ <;>
    simp [operator_bitnot_result, EnumVal.cast, IntType.convert, Prvalue.cast, Prvalue.compl,
      Prvalue.promoted, result.to_underlying, IntType.promote, IntType.wrap, IntType.bits,
      IntType.isSigned, Width.bits, int32_t, lnot_eq, IntType.InRange, IntType.minVal,
      IntType.maxVal] at hv hE ⊢ <;>
    omega

theorem pattern_lt (T : IntType) (v : Int) : T.pattern v < 2 ^ T.bits := by
  unfold IntType.pattern
  have h1 : (0 : Int) < 2 ^ T.bits := by positivity
  have h2 := Int.emod_lt_of_pos v h1
  have h3 := Int.emod_nonneg v (ne_of_gt h1)
  have h4 : ((v % 2 ^ T.bits).toNat : Int) < ((2 ^ T.bits : Nat) : Int) := by
    rw [Int.toNat_of_nonneg h3]; push_cast; exact h2
  exact_mod_cast h4

theorem pattern_operator_bitnot {E : EnumType} (hE : E.underlying ≠ .bool)
    (e : EnumVal E) :
    E.underlying.pattern (operator_bitnot e).value
      = 2 ^ E.underlying.bits - 1 - E.underlying.pattern e.val := by
  rw [operator_bitnot_value hE]
  rcases e with ⟨v, hv⟩
  rcases E with ⟨i, _ | ⟨_ | _, _ | _ | _ | _⟩⟩ <;>
    simp [IntType.pattern, IntType.bits, IntType.isSigned, Width.bits, IntType.InRange,
      IntType.minVal, IntType.maxVal] at hv hE ⊢ <;>
    omega

theorem wrap_of_inRange {T : IntType} {v : Int} (h : T.InRange v) : T.wrap v = v := by
  rcases T with _ | ⟨_ | _, _ | _ | _ | _⟩ <;>
    simp [IntType.wrap, IntType.bits, IntType.isSigned, Width.bits, IntType.InRange, IntType.minVal,
      IntType.maxVal] at h ⊢ <;>
    omega

theorem ldiff_lt_two_pow {m k : Nat} (n : Nat) (h : m < 2 ^ k) : Nat.ldiff m n < 2 ^ k := by
  apply Nat.lt_pow_two_of_testBit
  intro i hi
  have hm : m.testBit i = false :=
    Nat.testBit_lt_two_pow (lt_of_lt_of_le h (Nat.pow_le_pow_right (by norm_num) hi))
  rw [Nat.testBit_ldiff, hm]
  rfl

theorem land_signed_range (k : Nat) (a b : Int) (ha : -(2 ^ k) ≤ a ∧ a < 2 ^ k)
    (hb : -(2 ^ k) ≤ b ∧ b < 2 ^ k) : -(2 ^ k) ≤ Int.land a b ∧ Int.land a b < 2 ^ k := by
  have hp : (0 : Int) < 2 ^ k := by positivity
  cases a with
  | ofNat m =>
    have hm : m < 2 ^ k := by
      have := ha.2; simp only [Int.ofNat_eq_coe] at this; exact_mod_cast this
    cases b with
    | ofNat n =>
      have h := Nat.and_lt_two_pow n hm
      rw [Nat.land_comm] at h
      have h2 : ((m &&& n : Nat) : Int) < 2 ^ k := by exact_mod_cast h
      show -(2 ^ k) ≤ ((m &&& n : Nat) : Int) ∧ ((m &&& n : Nat) : Int) < 2 ^ k
      omega
    | negSucc n =>
      have h := ldiff_lt_two_pow n hm
      have h2 : ((Nat.ldiff m n : Nat) : Int) < 2 ^ k := by exact_mod_cast h
      show -(2 ^ k) ≤ ((Nat.ldiff m n : Nat) : Int) ∧ ((Nat.ldiff m n : Nat) : Int) < 2 ^ k
      omega
  | negSucc m =>
    cases b with
    | ofNat n =>
      have hn : n < 2 ^ k := by
        have := hb.2; simp only [Int.ofNat_eq_coe] at this; exact_mod_cast this
      have h := ldiff_lt_two_pow m hn
      have h2 : ((Nat.ldiff n m : Nat) : Int) < 2 ^ k := by exact_mod_cast h
      show -(2 ^ k) ≤ ((Nat.ldiff n m : Nat) : Int) ∧ ((Nat.ldiff n m : Nat) : Int) < 2 ^ k
      omega
    | negSucc n =>
      have hm : m < 2 ^ k := by
        have := ha.1; rw [Int.negSucc_eq] at this
        have h3 : (m : Int) < 2 ^ k := by omega
        exact_mod_cast h3
      have hn : n < 2 ^ k := by
        have := hb.1; rw [Int.negSucc_eq] at this
        have h3 : (n : Int) < 2 ^ k := by omega
        exact_mod_cast h3
      have h := Nat.or_lt_two_pow hm hn
      have h2 : ((m ||| n : Nat) : Int) < 2 ^ k := by exact_mod_cast h
      show -(2 ^ k) ≤ Int.negSucc (m ||| n) ∧ Int.negSucc (m ||| n) < 2 ^ k
      rw [Int.negSucc_eq]
      omega

theorem land_unsigned_range (k : Nat) (a b : Int) (ha : 0 ≤ a ∧ a < 2 ^ k) (hb : 0 ≤ b) :
    0 ≤ Int.land a b ∧ Int.land a b < 2 ^ k := by
  obtain ⟨m, rfl⟩ := Int.eq_ofNat_of_zero_le ha.1
  obtain ⟨n, rfl⟩ := Int.eq_ofNat_of_zero_le hb
  have hm : m < 2 ^ k := by exact_mod_cast ha.2
  have h := Nat.and_lt_two_pow n hm
  rw [Nat.land_comm] at h
  have h2 : ((m &&& n : Nat) : Int) < 2 ^ k := by exact_mod_cast h
  show 0 ≤ ((m &&& n : Nat) : Int) ∧ ((m &&& n : Nat) : Int) < 2 ^ k
  omega

theorem lor_signed_range (k : Nat) (a b : Int) (ha : -(2 ^ k) ≤ a ∧ a < 2 ^ k)
    (hb : -(2 ^ k) ≤ b ∧ b < 2 ^ k) : -(2 ^ k) ≤ Int.lor a b ∧ Int.lor a b < 2 ^ k := by
  have hp : (0 : Int) < 2 ^ k := by positivity
  cases a with
  | ofNat m =>
    have hm : m < 2 ^ k := by
      have := ha.2; simp only [Int.ofNat_eq_coe] at this; exact_mod_cast this
    cases b with
    | ofNat n =>
      have hn : n < 2 ^ k := by
        have := hb.2; simp only [Int.ofNat_eq_coe] at this; exact_mod_cast this
      have h := Nat.or_lt_two_pow hm hn
      have h2 : ((m ||| n : Nat) : Int) < 2 ^ k := by exact_mod_cast h
      show -(2 ^ k) ≤ ((m ||| n : Nat) : Int) ∧ ((m ||| n : Nat) : Int) < 2 ^ k
      omega
    | negSucc n =>
      have hn : n < 2 ^ k := by
        have := hb.1; rw [Int.negSucc_eq] at this
        have h3 : (n : Int) < 2 ^ k := by omega
        exact_mod_cast h3
      have h := ldiff_lt_two_pow m hn
      have h2 : ((Nat.ldiff n m : Nat) : Int) < 2 ^ k := by exact_mod_cast h
      show -(2 ^ k) ≤ Int.negSucc (Nat.ldiff n m) ∧ Int.negSucc (Nat.ldiff n m) < 2 ^ k
      rw [Int.negSucc_eq]
      omega
  | negSucc m =>
    have hm : m < 2 ^ k := by
      have := ha.1; rw [Int.negSucc_eq] at this
      have h3 : (m : Int) < 2 ^ k := by omega
      exact_mod_cast h3
    cases b with
    | ofNat n =>
      have h := ldiff_lt_two_pow n hm
      have h2 : ((Nat.ldiff m n : Nat) : Int) < 2 ^ k := by exact_mod_cast h
      show -(2 ^ k) ≤ Int.negSucc (Nat.ldiff m n) ∧ Int.negSucc (Nat.ldiff m n) < 2 ^ k
      rw [Int.negSucc_eq]
      omega
    | negSucc n =>
      have h := Nat.and_lt_two_pow n hm
      rw [Nat.land_comm] at h
      have h2 : ((m &&& n : Nat) : Int) < 2 ^ k := by exact_mod_cast h
      show -(2 ^ k) ≤ Int.negSucc (m &&& n) ∧ Int.negSucc (m &&& n) < 2 ^ k
      rw [Int.negSucc_eq]
      omega

theorem lor_unsigned_range (k : Nat) (a b : Int) (ha : 0 ≤ a ∧ a < 2 ^ k)
    (hb : 0 ≤ b ∧ b < 2 ^ k) : 0 ≤ Int.lor a b ∧ Int.lor a b < 2 ^ k := by
  obtain ⟨m, rfl⟩ := Int.eq_ofNat_of_zero_le ha.1
  obtain ⟨n, rfl⟩ := Int.eq_ofNat_of_zero_le hb.1
  have hm : m < 2 ^ k := by exact_mod_cast ha.2
  have hn : n < 2 ^ k := by exact_mod_cast hb.2
  have h := Nat.or_lt_two_pow hm hn
  have h2 : ((m ||| n : Nat) : Int) < 2 ^ k := by exact_mod_cast h
  show 0 ≤ ((m ||| n : Nat) : Int) ∧ ((m ||| n : Nat) : Int) < 2 ^ k
  omega

theorem land_inRange {T : IntType} {a b : Int} (ha : T.InRange a) (hb : T.InRange b) :
    T.InRange (Int.land a b) := by
  unfold IntType.InRange IntType.minVal IntType.maxVal at *
  cases hs : T.isSigned
  · simp only [hs, Bool.false_eq_true, if_false] at ha hb ⊢
    have := land_unsigned_range T.bits a b ⟨ha.1, by omega⟩ hb.1
    omega
  · simp only [hs, if_true] at ha hb ⊢
    have := land_signed_range (T.bits - 1) a b ⟨ha.1, by omega⟩ ⟨hb.1, by omega⟩
    omega

theorem lor_inRange {T : IntType} {a b : Int} (ha : T.InRange a) (hb : T.InRange b) :
    T.InRange (Int.lor a b) := by
  unfold IntType.InRange IntType.minVal IntType.maxVal at *
  cases hs : T.isSigned
  · simp only [hs, Bool.false_eq_true, if_false] at ha hb ⊢
    have := lor_unsigned_range T.bits a b ⟨ha.1, by omega⟩ ⟨hb.1, by omega⟩
    omega
  · simp only [hs, if_true] at ha hb ⊢
    have := lor_signed_range (T.bits - 1) a b ⟨ha.1, by omega⟩ ⟨hb.1, by omega⟩
    omega

theorem inRange_of_represents {A B : IntType}
    (hsub : A.minVal ≤ B.minVal ∧ B.maxVal ≤ A.maxVal) {b : Int} (hb : B.InRange b) :
    A.InRange b :=
  ⟨le_trans hsub.1 hb.1, le_trans hb.2 hsub.2⟩

theorem common_type_preserves (A B : IntType) (a b : Int) (ha : A.InRange a)
    (hb : B.InRange b) (hsub : A.minVal ≤ B.minVal ∧ B.maxVal ≤ A.maxVal) :
    (usual_arithmetic A.promote B.promote).wrap (A.promote.wrap a) = a ∧
      (usual_arithmetic A.promote B.promote).wrap (B.promote.wrap b) = b := by
  rcases A with _ | ⟨_ | _, _ | _ | _ | _⟩ <;>
  rcases B with _ | ⟨_ | _, _ | _ | _ | _⟩ <;>
    simp [usual_arithmetic, IntType.promote, int32_t, IntType.wrap, IntType.bits,
      IntType.isSigned, Width.bits,
      IntType.InRange, IntType.minVal, IntType.maxVal] at ha hb hsub ⊢ <;>
    omega

theorem band_val (x y : Prvalue) (hx : x.ty.InRange x.val) (hy : y.ty.InRange y.val)
    (hsub : x.ty.minVal ≤ y.ty.minVal ∧ y.ty.maxVal ≤ x.ty.maxVal) :
    (x.band y).val = Int.land x.val y.val := by
  have h := common_type_preserves x.ty y.ty x.val y.val hx hy hsub
  simp only [Prvalue.band, Prvalue.promoted, Prvalue.cast]
  rw [h.1, h.2]

theorem bor_val (x y : Prvalue) (hx : x.ty.InRange x.val) (hy : y.ty.InRange y.val)
    (hsub : x.ty.minVal ≤ y.ty.minVal ∧ y.ty.maxVal ≤ x.ty.maxVal) :
    (x.bor y).val = Int.lor x.val y.val := by
  have h := common_type_preserves x.ty y.ty x.val y.val hx hy hsub
  simp only [Prvalue.bor, Prvalue.promoted, Prvalue.cast]
  rw [h.1, h.2]

theorem list_init_from_iff (L R : EnumType) :
    list_init_from L R = true ↔
      L.underlying.minVal ≤ R.underlying.minVal ∧ R.underlying.maxVal ≤ L.underlying.maxVal := by
  simp [list_init_from]

theorem operator_and_val {L R : EnumType} (h : list_init_from L R = true) (lhs : EnumVal L)
    (rhs : EnumVal R) : (operator_and lhs rhs).val = Int.land lhs.val rhs.val := by
  have hsub := (list_init_from_iff L R).1 h
  have hb := band_val lhs.to_underlying rhs.to_underlying lhs.inRange rhs.inRange hsub
  show L.underlying.wrap (Prvalue.band lhs.to_underlying rhs.to_underlying).val = _
  rw [hb]
  exact wrap_of_inRange (land_inRange lhs.inRange (inRange_of_represents hsub rhs.inRange))

theorem operator_and_result_val {L O : EnumType} (h : list_init_from L O = true)
    (lhs : EnumVal L) (rhs : result O) :
    (operator_and_result lhs rhs).val = Int.land lhs.val rhs.value := by
  have hsub := (list_init_from_iff L O).1 h
  have hb := band_val lhs.to_underlying rhs.to_underlying lhs.inRange rhs.inRange hsub
  show L.underlying.wrap (Prvalue.band lhs.to_underlying rhs.to_underlying).val = _
  rw [hb]
  exact wrap_of_inRange (land_inRange lhs.inRange (inRange_of_represents hsub rhs.inRange))

theorem operator_or_val {L R : EnumType} (h : list_init_from L R = true) (lhs : EnumVal L)
    (rhs : EnumVal R) : (operator_or lhs rhs).val = Int.lor lhs.val rhs.val := by
  have hsub := (list_init_from_iff L R).1 h
  have hb := bor_val lhs.to_underlying rhs.to_underlying lhs.inRange rhs.inRange hsub
  show L.underlying.wrap (Prvalue.bor lhs.to_underlying rhs.to_underlying).val = _
  rw [hb]
  exact wrap_of_inRange (lor_inRange lhs.inRange (inRange_of_represents hsub rhs.inRange))

theorem testBit_pattern (T : IntType) (v : Int) (i : Nat) :
    (T.pattern v).testBit i = (decide (i < T.bits) && v.testBit i) := by
  unfold IntType.pattern
  cases v with
  | ofNat n =>
    have h : ((Int.ofNat n) % 2 ^ T.bits).toNat = n % 2 ^ T.bits := by
      have : (Int.ofNat n) % 2 ^ T.bits = ((n % 2 ^ T.bits : Nat) : Int) := by
        simp only [Int.ofNat_eq_coe]; push_cast; rfl
      rw [this, Int.toNat_natCast]
    rw [h, Nat.testBit_mod_two_pow]
    rfl
  | negSucc n =>
    have hp : 0 < 2 ^ T.bits := by positivity
    have hlt : n % 2 ^ T.bits < 2 ^ T.bits := Nat.mod_lt _ hp
    have h : ((Int.negSucc n) % 2 ^ T.bits).toNat = 2 ^ T.bits - (n % 2 ^ T.bits + 1) := by
      have h1 : (Int.negSucc n) % 2 ^ T.bits
          = ((2 ^ T.bits - (n % 2 ^ T.bits + 1) : Nat) : Int) := by
        have hq : (0 : Int) < 2 ^ T.bits := by positivity
        have e1 : ((n % 2 ^ T.bits : Nat) : Int) = (n : Int) % 2 ^ T.bits := by
          push_cast; rfl
        have e2 : (n : Int) = 2 ^ T.bits * ((n : Int) / 2 ^ T.bits) + (n : Int) % 2 ^ T.bits :=
          (Int.ediv_add_emod _ _).symm
        have e3 : Int.negSucc n
            = ((2 ^ T.bits - (n % 2 ^ T.bits + 1) : Nat) : Int)
              + 2 ^ T.bits * (-((n : Int) / 2 ^ T.bits) - 1) := by
          rw [Int.negSucc_eq, Nat.cast_sub (by omega)]
          push_cast
          rw [← e1] at e2 ⊢
          linarith
        rw [e3, Int.add_mul_emod_self_left]
        apply Int.emod_eq_of_lt (Int.natCast_nonneg _)
        have : 2 ^ T.bits - (n % 2 ^ T.bits + 1) < 2 ^ T.bits := by omega
        exact_mod_cast this
      rw [h1, Int.toNat_natCast]
    rw [h, Nat.testBit_two_pow_sub_succ hlt, Nat.testBit_mod_two_pow]
    show (decide (i < T.bits) && !(decide (i < T.bits) && n.testBit i))
      = (decide (i < T.bits) && !n.testBit i)
    cases decide (i < T.bits) <;> simp

theorem pattern_land (T : IntType) (a b : Int) :
    T.pattern (Int.land a b) = T.pattern a &&& T.pattern b := by
  apply Nat.eq_of_testBit_eq
  intro i
  rw [Nat.testBit_and, testBit_pattern, testBit_pattern, testBit_pattern, Int.testBit_land]
  cases decide (i < T.bits) <;> simp

theorem pattern_lor (T : IntType) (a b : Int) :
    T.pattern (Int.lor a b) = T.pattern a ||| T.pattern b := by
  apply Nat.eq_of_testBit_eq
  intro i
  rw [Nat.testBit_or, testBit_pattern, testBit_pattern, testBit_pattern, Int.testBit_lor]
  cases decide (i < T.bits) <;> simp

theorem promote_wrap_of_inRange {T : IntType} {v : Int} (h : T.InRange v) :
    T.promote.wrap v = v := by
  rcases T with _ | ⟨_ | _, _ | _ | _ | _⟩ <;>
    simp [IntType.promote, int32_t, IntType.wrap, IntType.bits, IntType.isSigned, Width.bits,
      IntType.InRange,
      IntType.minVal, IntType.maxVal] at h ⊢ <;>
    omega

theorem minVal_le_maxVal (T : IntType) : T.minVal ≤ T.maxVal := by
  rcases T with _ | ⟨_ | _, _ | _ | _ | _⟩ <;> simp [IntType.minVal, IntType.maxVal,
    IntType.bits, IntType.isSigned, Width.bits]

theorem represents_iff (A B : IntType) :
    (∀ v, B.InRange v → A.InRange v) ↔ A.minVal ≤ B.minVal ∧ B.maxVal ≤ A.maxVal := by
  constructor
  · intro h
    have h1 := h B.minVal ⟨le_refl _, minVal_le_maxVal B⟩
    have h2 := h B.maxVal ⟨minVal_le_maxVal B, le_refl _⟩
    exact ⟨h1.1, h2.2⟩
  · intro h v hv
    exact inRange_of_represents h hv

theorem not_list_init_of_wider (L R : EnumType) (h : L.underlying.bits < R.underlying.bits) :
    list_init_from L R = false := by
  rcases L with ⟨i, _ | ⟨_ | _, _ | _ | _ | _⟩⟩ <;>
  rcases R with ⟨j, _ | ⟨_ | _, _ | _ | _ | _⟩⟩ <;>
    simp [list_init_from, IntType.minVal, IntType.maxVal, IntType.bits, IntType.isSigned,
      Width.bits] at h ⊢

/-! ## Unary bit-not -/

/-- For every enumerated type whose underlying type is not `bool` and for which
`~e` is well-formed, `~~e` is well-formed too and equals `e`. -/
theorem double_bitnot_roundtrip (s : Specializations) (E : EnumType)
    (hE : E.underlying ≠ .bool) (h : has_bit_not s (.enum E) = true) (e : EnumVal E) :
    has_bit_not s (.bitnot_result E) = true ∧
      operator_bitnot_result (operator_bitnot e) = e := by
  refine ⟨?_, ?_⟩
  · simpa [has_bit_not, has_bit_not_enum] using h
  · apply EnumVal.eq_of_val
    rw [operator_bitnot_result_val hE, operator_bitnot_value hE]
    omega

/-- The static assertion `~~e8_bitnot{5} == e8_bitnot{5}`. -/
theorem double_bitnot_roundtrip_e8 :
    has_bit_not unit_test_detail.specializations (.enum unit_test_detail.e8_bitnot) = true ∧
      operator_bitnot_result
          (operator_bitnot (EnumVal.lit unit_test_detail.e8_bitnot 5 (by decide)))
        = EnumVal.lit unit_test_detail.e8_bitnot 5 (by decide) :=
  ⟨by decide,
    (double_bitnot_roundtrip unit_test_detail.specializations unit_test_detail.e8_bitnot
      (by decide) (by decide) (EnumVal.lit unit_test_detail.e8_bitnot 5 (by decide))).2⟩

/-- For every enumerated type whose underlying type is `bool`, `~e` stores `true`
whatever `e` is, and `~~e` is `true` whatever `e` is: the complement of the
promoted operand is -1 or -2, and both convert to `true`. -/
theorem bitnot_of_bool (E : EnumType) (hE : E.underlying = .bool) (e : EnumVal E) :
    (operator_bitnot e).value = 1 ∧ (operator_bitnot_result (operator_bitnot e)).val = 1 := by
  rcases e with ⟨v, hv⟩
  rcases E with ⟨i, U⟩
  simp only at hE
  subst hE
  have hp : IntType.bool.promote = int32_t := rfl
  have hw : ∀ x : Int, IntType.bool.wrap x = if x = 0 then 0 else 1 := fun x => rfl
  have h32 : ∀ x : Int, -2147483648 ≤ x → x ≤ 2147483647 → int32_t.wrap x = x := by
    intro x h1 h2
    simp [IntType.wrap, int32_t, IntType.isSigned, IntType.bits, Width.bits]
    omega
  have h01 : v = 0 ∨ v = 1 := by
    simp [IntType.InRange, IntType.minVal, IntType.maxVal, IntType.bits, IntType.isSigned]
      at hv
    omega
  have hn : (operator_bitnot (⟨v, hv⟩ : EnumVal ⟨i, .bool⟩)).value = 1 := by
    show IntType.bool.wrap (IntType.bool.wrap
      (IntType.bool.promote.wrap (Int.lnot (IntType.bool.promote.wrap v)))) = 1
    rw [hp, h32 v (by omega) (by omega), lnot_eq, h32 _ (by omega) (by omega), hw, hw]
    rcases h01 with rfl | rfl <;> simp
  refine ⟨hn, ?_⟩
  show IntType.bool.wrap (IntType.bool.promote.wrap (Int.lnot (IntType.bool.promote.wrap
    (operator_bitnot (⟨v, hv⟩ : EnumVal ⟨i, .bool⟩)).value))) = 1
  rw [hn, hp, h32 1 (by omega) (by omega), lnot_eq, h32 _ (by omega) (by omega), hw]
  simp

/-- C1 fails on the code for an enumerated type whose underlying type is
`bool`: with bit-not enabled for `e_bool`, both `~e` and `~~e` are well-formed,
and `~~e_bool{false}` is `e_bool{true}`, not `e_bool{false}`. -/
theorem double_bitnot_of_bool_false :
    has_bit_not example_types.bool_flag (.enum example_types.e_bool) = true ∧
    has_bit_not example_types.bool_flag (.bitnot_result example_types.e_bool) = true ∧
    operator_bitnot_result (operator_bitnot (EnumVal.lit example_types.e_bool 0 (by decide)))
      = EnumVal.lit example_types.e_bool 1 (by decide) ∧
    operator_bitnot_result (operator_bitnot (EnumVal.lit example_types.e_bool 0 (by decide)))
      ≠ EnumVal.lit example_types.e_bool 0 (by decide) := by
  decide

/-- For every enumerated type whose underlying type is not `bool` and for which
`~e` is well-formed, the value stored in the struct returned by `~e` is the
complement of the underlying integer of `e` reduced modulo `2 ^ w`, `w` the
width of the underlying type: its `w`-bit pattern is `2 ^ w - 1` minus the
pattern of `e`, every one of the `w` bits is flipped, and for an unsigned
underlying type the stored value is `2 ^ w - 1 - e` itself, which is 253 for
`e = 2` and `w = 8`. -/
theorem bitnot_stores_complement (s : Specializations) (E : EnumType)
    (hE : E.underlying ≠ .bool) (_h : has_bit_not s (.enum E) = true) (e : EnumVal E) :
    (operator_bitnot e).value = E.underlying.wrap (Int.lnot e.val) ∧
    E.underlying.pattern (operator_bitnot e).value
      = 2 ^ E.underlying.bits - 1 - E.underlying.pattern e.val ∧
    (∀ i, i < E.underlying.bits →
      (E.underlying.pattern (operator_bitnot e).value).testBit i
        = !(E.underlying.pattern e.val).testBit i) ∧
    (E.underlying.isSigned = false →
      (operator_bitnot e).value = 2 ^ E.underlying.bits - 1 - e.val) ∧
    (E.underlying = uint8_t → e.val = 2 → (operator_bitnot e).value = 253) := by
  have hval := operator_bitnot_value hE e
  have hpat := pattern_operator_bitnot hE e
  refine ⟨?_, hpat, ?_, ?_, ?_⟩
  · rw [hval, lnot_eq]
    rcases e with ⟨v, hv⟩
    rcases E with ⟨i, _ | ⟨_ | _, _ | _ | _ | _⟩⟩ <;>
      simp [IntType.wrap, IntType.bits, IntType.isSigned, Width.bits, IntType.InRange,
        IntType.minVal, IntType.maxVal] at hv hE ⊢ <;>
      omega
  · intro i hi
    have hlt := pattern_lt E.underlying e.val
    rw [hpat]
    have := Nat.testBit_two_pow_sub_succ hlt i
    rw [show 2 ^ E.underlying.bits - 1 - E.underlying.pattern e.val
        = 2 ^ E.underlying.bits - (E.underlying.pattern e.val + 1) by omega, this]
    simp [hi]
  · intro hs
    rw [hval]
    simp [IntType.minVal, IntType.maxVal, hs]
  · intro hU hv
    rw [hval, hU, hv]
    decide

/-- The static assertion that `~e8_bitnot{2}` stores 253. -/
theorem bitnot_stores_complement_e8 :
    has_bit_not unit_test_detail.specializations (.enum unit_test_detail.e8_bitnot) = true ∧
      (operator_bitnot (EnumVal.lit unit_test_detail.e8_bitnot 2 (by decide))).value = 253 :=
  ⟨by decide,
    (bitnot_stores_complement unit_test_detail.specializations unit_test_detail.e8_bitnot
      (by decide) (by decide)
      (EnumVal.lit unit_test_detail.e8_bitnot 2 (by decide))).2.2.2.2 rfl rfl⟩

/-- C2 fails on the code for an enumerated type whose underlying type is
`bool`: with bit-not enabled for `e_bool`, `~e_bool{true}` stores 1, as
`~e_bool{false}` does, and 1 is not congruent to the complement of 1 modulo
`2 ^ w` for any width `w` of at least one bit. -/
theorem bitnot_of_bool_true_stores_true :
    has_bit_not example_types.bool_flag (.enum example_types.e_bool) = true ∧
    (operator_bitnot (EnumVal.lit example_types.e_bool 1 (by decide))).value = 1 ∧
    (operator_bitnot (EnumVal.lit example_types.e_bool 0 (by decide))).value = 1 ∧
    ∀ w : Nat,
      ((operator_bitnot (EnumVal.lit example_types.e_bool 1 (by decide))).value
        - Int.lnot 1) % 2 ^ (w + 1) ≠ 0 := by
  refine ⟨by decide, by decide, by decide, ?_⟩
  intro w h
  have h1 : (operator_bitnot (EnumVal.lit example_types.e_bool 1 (by decide))).value
      - Int.lnot 1 = 3 := by decide
  rw [h1] at h
  have h2 : (2 : Int) ∣ 2 ^ (w + 1) := dvd_pow_self 2 (Nat.succ_ne_zero w)
  have h3 : (2 : Int) ∣ 3 := dvd_trans h2 (Int.dvd_of_emod_eq_zero h)
  omega

/-! ## Binary bit-and and bit-or -/

theorem list_init_of_has_bit_and {s : Specializations} {L R : EnumType}
    (h : has_bit_and s (.enum L) (.enum R) = true) : list_init_from L R = true := by
  simp only [has_bit_and, has_bit_and_enum, Bool.and_eq_true] at h
  exact h.2

theorem list_init_of_has_bit_and_result {s : Specializations} {L O : EnumType}
    (h : has_bit_and s (.enum L) (.bitnot_result O) = true) : list_init_from L O = true := by
  simp only [has_bit_and, has_bit_and_enum, Bool.and_eq_true] at h
  exact h.2.2

theorem list_init_of_has_bit_or {s : Specializations} {L R : EnumType}
    (h : has_bit_or s (.enum L) (.enum R) = true) : list_init_from L R = true := by
  simp only [has_bit_or, Bool.and_eq_true] at h
  exact h.2

/-- C3: whenever `lhs & rhs` is well-formed for enumerated types `L` and `R`,
the result, a value of `L`, has as underlying integer the bitwise and of the
underlying integer of `lhs` with the underlying integer of `rhs` converted to
the underlying type of `L` (a conversion that keeps its value): as integers,
as bit patterns at the width of `L`, and bit by bit.  In particular
`e16_bitand_composite{3} & e16_bitand_flag{1} == e16_bitand_composite{1}`. -/
theorem bit_and_is_underlying_and (s : Specializations) (L R : EnumType)
    (h : has_bit_and s (.enum L) (.enum R) = true) (lhs : EnumVal L) (rhs : EnumVal R) :
    (operator_and lhs rhs).val = Int.land lhs.val (L.underlying.wrap rhs.val) ∧
    L.underlying.wrap rhs.val = rhs.val ∧
    L.underlying.pattern (operator_and lhs rhs).val
      = L.underlying.pattern lhs.val &&& L.underlying.pattern (L.underlying.wrap rhs.val) ∧
    (∀ i, (operator_and lhs rhs).val.testBit i = (lhs.val.testBit i && rhs.val.testBit i)) ∧
    operator_and (EnumVal.lit unit_test_detail.e16_bitand_composite 3 (by decide))
        (EnumVal.lit unit_test_detail.e16_bitand_flag 1 (by decide))
      = EnumVal.lit unit_test_detail.e16_bitand_composite 1 (by decide) := by
  have hl := list_init_of_has_bit_and h
  have hw : L.underlying.wrap rhs.val = rhs.val :=
    wrap_of_inRange (inRange_of_represents ((list_init_from_iff L R).1 hl) rhs.inRange)
  have hv := operator_and_val hl lhs rhs
  refine ⟨by rw [hw, hv], hw, by rw [hw, hv, pattern_land], ?_, by decide⟩
  intro i
  rw [hv, Int.testBit_land]

/-- Witness for C3: the pair enabled by the header's own specialisation. -/
theorem bit_and_is_underlying_and_witness :
    has_bit_and unit_test_detail.specializations (.enum unit_test_detail.e16_bitand_composite)
        (.enum unit_test_detail.e16_bitand_flag) = true ∧
      (operator_and (EnumVal.lit unit_test_detail.e16_bitand_composite 3 (by decide))
        (EnumVal.lit unit_test_detail.e16_bitand_flag 1 (by decide))).val
        = Int.land 3 (uint16_t.wrap 1) :=
  ⟨by decide,
    (bit_and_is_underlying_and unit_test_detail.specializations
      unit_test_detail.e16_bitand_composite unit_test_detail.e16_bitand_flag (by decide)
      (EnumVal.lit unit_test_detail.e16_bitand_composite 3 (by decide))
      (EnumVal.lit unit_test_detail.e16_bitand_flag 1 (by decide))).1⟩

/-- C4: whenever `lhs | rhs` is well-formed for enumerated types `L` and `R`,
the result, a value of `L`, has as underlying integer the bitwise or of the
underlying integer of `lhs` with the underlying integer of `rhs` converted to
the underlying type of `L` (a conversion that keeps its value): as integers,
as bit patterns at the width of `L`, and bit by bit.  In particular
`e16_bitor_composite{2} | e16_bitor_flag{1} == e16_bitor_composite{3}`. -/
theorem bit_or_is_underlying_or (s : Specializations) (L R : EnumType)
    (h : has_bit_or s (.enum L) (.enum R) = true) (lhs : EnumVal L) (rhs : EnumVal R) :
    (operator_or lhs rhs).val = Int.lor lhs.val (L.underlying.wrap rhs.val) ∧
    L.underlying.wrap rhs.val = rhs.val ∧
    L.underlying.pattern (operator_or lhs rhs).val
      = L.underlying.pattern lhs.val ||| L.underlying.pattern (L.underlying.wrap rhs.val) ∧
    (∀ i, (operator_or lhs rhs).val.testBit i = (lhs.val.testBit i || rhs.val.testBit i)) ∧
    operator_or (EnumVal.lit unit_test_detail.e16_bitor_composite 2 (by decide))
        (EnumVal.lit unit_test_detail.e16_bitor_flag 1 (by decide))
      = EnumVal.lit unit_test_detail.e16_bitor_composite 3 (by decide) := by
  have hl := list_init_of_has_bit_or h
  have hw : L.underlying.wrap rhs.val = rhs.val :=
    wrap_of_inRange (inRange_of_represents ((list_init_from_iff L R).1 hl) rhs.inRange)
  have hv := operator_or_val hl lhs rhs
  refine ⟨by rw [hw, hv], hw, by rw [hw, hv, pattern_lor], ?_, by decide⟩
  intro i
  rw [hv, Int.testBit_lor]

/-- Witness for C4: the pair enabled by the header's own specialisation. -/
theorem bit_or_is_underlying_or_witness :
    has_bit_or unit_test_detail.specializations (.enum unit_test_detail.e16_bitor_composite)
        (.enum unit_test_detail.e16_bitor_flag) = true ∧
      (operator_or (EnumVal.lit unit_test_detail.e16_bitor_composite 2 (by decide))
        (EnumVal.lit unit_test_detail.e16_bitor_flag 1 (by decide))).val
        = Int.lor 2 (uint16_t.wrap 1) :=
  ⟨by decide,
    (bit_or_is_underlying_or unit_test_detail.specializations
      unit_test_detail.e16_bitor_composite unit_test_detail.e16_bitor_flag (by decide)
      (EnumVal.lit unit_test_detail.e16_bitor_composite 2 (by decide))
      (EnumVal.lit unit_test_detail.e16_bitor_flag 1 (by decide))).1⟩

/-- C5: whenever `lhs & n` is well-formed for `lhs` of the enumerated type `L`
and `n` the struct returned by `operator~` for the enumerated type `O`, the
result, a value of `L`, has as underlying integer the bitwise and of the
underlying integer of `lhs` with the integer stored in `n`, read as a value of
the underlying type of `O` and converted to the underlying type of `L` (a
conversion that keeps its value). -/
theorem bit_and_result_is_underlying_and (s : Specializations) (L O : EnumType)
    (h : has_bit_and s (.enum L) (.bitnot_result O) = true) (lhs : EnumVal L) (n : result O) :
    (operator_and_result lhs n).val
      = Int.land lhs.val (L.underlying.wrap (O.underlying.wrap n.value)) ∧
    O.underlying.wrap n.value = n.value ∧
    L.underlying.wrap n.value = n.value ∧
    L.underlying.pattern (operator_and_result lhs n).val
      = L.underlying.pattern lhs.val &&& L.underlying.pattern n.value ∧
    (∀ i, (operator_and_result lhs n).val.testBit i
      = (lhs.val.testBit i && n.value.testBit i)) := by
  have hl := list_init_of_has_bit_and_result h
  have ho : O.underlying.wrap n.value = n.value := wrap_of_inRange n.inRange
  have hw : L.underlying.wrap n.value = n.value :=
    wrap_of_inRange (inRange_of_represents ((list_init_from_iff L O).1 hl) n.inRange)
  have hv := operator_and_result_val hl lhs n
  refine ⟨by rw [ho, hw, hv], ho, hw, by rw [hv, pattern_land], ?_⟩
  intro i
  rw [hv, Int.testBit_land]

/-- Witness for C5: `e16_bitand_composite{3} & ~e16_bitand_flag{1}` is
`e16_bitand_composite{2}`. -/
theorem bit_and_result_is_underlying_and_witness :
    has_bit_and unit_test_detail.specializations (.enum unit_test_detail.e16_bitand_composite)
        (.bitnot_result unit_test_detail.e16_bitand_flag) = true ∧
      (operator_and_result (EnumVal.lit unit_test_detail.e16_bitand_composite 3 (by decide))
        (operator_bitnot (EnumVal.lit unit_test_detail.e16_bitand_flag 1 (by decide)))).val
        = 2 :=
  ⟨by decide,
    ((bit_and_result_is_underlying_and unit_test_detail.specializations
      unit_test_detail.e16_bitand_composite unit_test_detail.e16_bitand_flag (by decide)
      (EnumVal.lit unit_test_detail.e16_bitand_composite 3 (by decide))
      (operator_bitnot (EnumVal.lit unit_test_detail.e16_bitand_flag 1 (by decide)))).1).trans
      (by decide)⟩

/-! ## Boolean not and unary plus -/

/-- C6: for every enumerated type for which `!e` is well-formed, `!e` is true
exactly when the underlying integer of `e` is zero; `!E{}` is true and `!E{1}`
is false. -/
theorem boolnot_iff_zero (s : Specializations) (E : EnumType)
    (_h : has_bool_not s (.enum E) = true) (e : EnumVal E) :
    (operator_boolnot e = true ↔ e.val = 0) ∧
    (∀ h0, operator_boolnot (EnumVal.lit E 0 h0) = true) ∧
    (∀ h1, operator_boolnot (EnumVal.lit E 1 h1) = false) := by
  have key : ∀ x : EnumVal E, (operator_boolnot x = true ↔ x.val = 0) := by
    intro x
    simp only [operator_boolnot, Prvalue.lnot, Prvalue.promoted, Prvalue.cast,
      EnumVal.to_underlying, decide_eq_true_eq]
    rw [promote_wrap_of_inRange x.inRange]
  refine ⟨key e, ?_, ?_⟩
  · intro h0
    exact (key _).2 rfl
  · intro h1
    cases hb : operator_boolnot (EnumVal.lit E 1 h1)
    · rfl
    · have := (key _).1 hb
      simp [EnumVal.lit] at this

/-- Witness for C6: the static assertions `!e8_boolnot{}` and
`!!e8_boolnot{1}`. -/
theorem boolnot_iff_zero_witness :
    has_bool_not unit_test_detail.specializations (.enum unit_test_detail.e8_boolnot) = true ∧
      operator_boolnot (EnumVal.lit unit_test_detail.e8_boolnot 0 (by decide)) = true ∧
      operator_boolnot (EnumVal.lit unit_test_detail.e8_boolnot 1 (by decide)) = false :=
  ⟨by decide,
    (boolnot_iff_zero unit_test_detail.specializations unit_test_detail.e8_boolnot (by decide)
      (EnumVal.lit unit_test_detail.e8_boolnot 0 (by decide))).2.1 (by decide),
    (boolnot_iff_zero unit_test_detail.specializations unit_test_detail.e8_boolnot (by decide)
      (EnumVal.lit unit_test_detail.e8_boolnot 0 (by decide))).2.2 (by decide)⟩

/-- C7: for every enumerated type for which `+e` is well-formed, `+e` is a
prvalue of the underlying type holding exactly the underlying integer of `e`:
converting it back to the enumerated type gives `e`, `+E{}` is zero and `+E{n}`
is non-zero for non-zero `n`. -/
theorem unary_plus_is_underlying (s : Specializations) (E : EnumType)
    (_h : has_unary_plus s (.enum E) = true) (e : EnumVal E) :
    (operator_plus e).ty = E.underlying ∧
    (operator_plus e).val = e.val ∧
    EnumVal.cast E (operator_plus e) = e ∧
    (∀ h0, (operator_plus (EnumVal.lit E 0 h0)).val = 0) ∧
    (∀ n hn, n ≠ 0 → (operator_plus (EnumVal.lit E n hn)).val ≠ 0) := by
  refine ⟨rfl, rfl, ?_, fun _ => rfl, fun n hn hne => hne⟩
  apply EnumVal.eq_of_val
  exact wrap_of_inRange e.inRange

/-- Witness for C7: the static assertions on `+e8_boolnot{}` and
`+e8_boolnot{1}`. -/
theorem unary_plus_is_underlying_witness :
    has_unary_plus unit_test_detail.specializations (.enum unit_test_detail.e8_boolnot) = true ∧
      (operator_plus (EnumVal.lit unit_test_detail.e8_boolnot 1 (by decide))).val = 1 :=
  ⟨by decide,
    (unary_plus_is_underlying unit_test_detail.specializations unit_test_detail.e8_boolnot
      (by decide) (EnumVal.lit unit_test_detail.e8_boolnot 1 (by decide))).2.1⟩

/-! ## Compound assignment -/

/-- C8: compound assignment is the binary operator followed by assignment.
Whenever `lhs &= rhs` is well-formed (for an enumerated `rhs`, or for the
struct returned by `operator~`), `lhs & rhs` is well-formed, after the call
the object `lhs` holds `old lhs & rhs`, the returned reference denotes `lhs`
and so reads that value, and no other object is written; likewise for
`lhs |= rhs` and `old lhs | rhs`. -/
theorem compound_assignment_is_operator_then_assign (s : Specializations) (L : EnumType) :
    (∀ R : EnumType, has_bit_and_assign s (.enum L) (.enum R) = true →
      has_bit_and s (.enum L) (.enum R) = true ∧
      ∀ (σ : Store L) (lhs : Nat) (rhs : EnumVal R),
        (operator_and_assign σ lhs rhs).1 lhs = operator_and (σ lhs) rhs ∧
        (operator_and_assign σ lhs rhs).2 = lhs ∧
        (operator_and_assign σ lhs rhs).1 (operator_and_assign σ lhs rhs).2
          = operator_and (σ lhs) rhs ∧
        ∀ a, a ≠ lhs → (operator_and_assign σ lhs rhs).1 a = σ a) ∧
    (∀ O : EnumType, has_bit_and_assign s (.enum L) (.bitnot_result O) = true →
      has_bit_and s (.enum L) (.bitnot_result O) = true ∧
      ∀ (σ : Store L) (lhs : Nat) (rhs : result O),
        (operator_and_assign_result σ lhs rhs).1 lhs = operator_and_result (σ lhs) rhs ∧
        (operator_and_assign_result σ lhs rhs).2 = lhs ∧
        (operator_and_assign_result σ lhs rhs).1 (operator_and_assign_result σ lhs rhs).2
          = operator_and_result (σ lhs) rhs ∧
        ∀ a, a ≠ lhs → (operator_and_assign_result σ lhs rhs).1 a = σ a) ∧
    (∀ R : EnumType, has_bit_or_assign s (.enum L) (.enum R) = true →
      has_bit_or s (.enum L) (.enum R) = true ∧
      ∀ (σ : Store L) (lhs : Nat) (rhs : EnumVal R),
        (operator_or_assign σ lhs rhs).1 lhs = operator_or (σ lhs) rhs ∧
        (operator_or_assign σ lhs rhs).2 = lhs ∧
        (operator_or_assign σ lhs rhs).1 (operator_or_assign σ lhs rhs).2
          = operator_or (σ lhs) rhs ∧
        ∀ a, a ≠ lhs → (operator_or_assign σ lhs rhs).1 a = σ a) := by
  refine ⟨?_, ?_, ?_⟩
  · intro R h
    simp only [has_bit_and_assign, Bool.and_eq_true] at h
    refine ⟨h.2, fun σ lhs rhs => ?_⟩
    simp only [operator_and_assign, Store.write, if_true, true_and]
    intro a ha
    simp [ha]
  · intro O h
    simp only [has_bit_and_assign, Bool.and_eq_true] at h
    refine ⟨h.2, fun σ lhs rhs => ?_⟩
    simp only [operator_and_assign_result, Store.write, if_true, true_and]
    intro a ha
    simp [ha]
  · intro R h
    simp only [has_bit_or_assign, Bool.and_eq_true] at h
    refine ⟨h.2, fun σ lhs rhs => ?_⟩
    simp only [operator_or_assign, Store.write, if_true, true_and]
    intro a ha
    simp [ha]

/-- Witness for C8: in a memory whose objects all hold 3, `&=` with the flag 1
leaves 1 in the object, `&=` with `~1` leaves 2, and `|=` with the flag 4
leaves 7. -/
theorem compound_assignment_is_operator_then_assign_witness :
    (has_bit_and_assign unit_test_detail.specializations
        (.enum unit_test_detail.e16_bitand_composite)
        (.enum unit_test_detail.e16_bitand_flag) = true ∧
      ((operator_and_assign
          (fun _ => EnumVal.lit unit_test_detail.e16_bitand_composite 3 (by decide)) 0
          (EnumVal.lit unit_test_detail.e16_bitand_flag 1 (by decide))).1 0).val = 1) ∧
    (has_bit_and_assign unit_test_detail.specializations
        (.enum unit_test_detail.e16_bitand_composite)
        (.bitnot_result unit_test_detail.e16_bitand_flag) = true ∧
      ((operator_and_assign_result
          (fun _ => EnumVal.lit unit_test_detail.e16_bitand_composite 3 (by decide)) 0
          (operator_bitnot (EnumVal.lit unit_test_detail.e16_bitand_flag 1 (by decide)))).1
        0).val = 2) ∧
    (has_bit_or_assign unit_test_detail.specializations
        (.enum unit_test_detail.e16_bitor_composite)
        (.enum unit_test_detail.e16_bitor_flag) = true ∧
      ((operator_or_assign
          (fun _ => EnumVal.lit unit_test_detail.e16_bitor_composite 3 (by decide)) 0
          (EnumVal.lit unit_test_detail.e16_bitor_flag 4 (by decide))).1 0).val = 7) :=
  ⟨⟨by decide,
      (congrArg EnumVal.val
        (((compound_assignment_is_operator_then_assign unit_test_detail.specializations
          unit_test_detail.e16_bitand_composite).1 unit_test_detail.e16_bitand_flag
          (by decide)).2 _ 0 _).1).trans (by decide)⟩,
    ⟨by decide,
      (congrArg EnumVal.val
        (((compound_assignment_is_operator_then_assign unit_test_detail.specializations
          unit_test_detail.e16_bitand_composite).2.1 unit_test_detail.e16_bitand_flag
          (by decide)).2 _ 0 _).1).trans (by decide)⟩,
    ⟨by decide,
      (congrArg EnumVal.val
        (((compound_assignment_is_operator_then_assign unit_test_detail.specializations
          unit_test_detail.e16_bitor_composite).2.2 unit_test_detail.e16_bitor_flag
          (by decide)).2 _ 0 _).1).trans (by decide)⟩⟩

/-! ## Availability of bit-and and bit-or -/

/-- C9: for enumerated types `A` and `B`, `A & B` is well-formed exactly when
`enable_bit_enum_and<A, B>` is true and the underlying type of `A` can
represent every value of the underlying type of `B` (the conversion is not
narrowing).  It is ill-formed when the predicate is false, and ill-formed when
the underlying type of `B` is wider than that of `A` even if the predicate is
true, as for the header's `e16_bitand_composite` and `e32_bitand_flag`. -/
theorem bit_and_available_iff (s : Specializations) (A B : EnumType) :
    (has_bit_and s (.enum A) (.enum B) = true ↔
      enable_bit_enum_and s A (.enum B) = true ∧
        ∀ v, B.underlying.InRange v → A.underlying.InRange v) ∧
    (enable_bit_enum_and s A (.enum B) = false →
      has_bit_and s (.enum A) (.enum B) = false) ∧
    (A.underlying.bits < B.underlying.bits →
      has_bit_and s (.enum A) (.enum B) = false) ∧
    (has_bit_and unit_test_detail.specializations (.enum unit_test_detail.e16_bitand_composite)
        (.enum unit_test_detail.e8_bitnot) = false ∧
      has_bit_and unit_test_detail.specializations
        (.enum unit_test_detail.e16_bitand_composite)
        (.enum unit_test_detail.e16_bitand_flag) = true ∧
      enable_bit_enum_and unit_test_detail.specializations
        unit_test_detail.e16_bitand_composite (.enum unit_test_detail.e32_bitand_flag) = true ∧
      has_bit_and unit_test_detail.specializations
        (.enum unit_test_detail.e16_bitand_composite)
        (.enum unit_test_detail.e32_bitand_flag) = false) := by
  refine ⟨?_, ?_, ?_, by decide⟩
  · simp only [has_bit_and, has_bit_and_enum, Bool.and_eq_true, list_init_from_iff,
      represents_iff]
  · intro h
    simp [has_bit_and, has_bit_and_enum, h]
  · intro h
    simp [has_bit_and, has_bit_and_enum, not_list_init_of_wider A B h]

/-- Witness for C9: a 32-bit flag type against a 16-bit composite type, with
the predicate enabled. -/
theorem bit_and_available_iff_witness :
    enable_bit_enum_and unit_test_detail.specializations
        unit_test_detail.e16_bitand_composite (.enum unit_test_detail.e32_bitand_flag) = true ∧
      has_bit_and unit_test_detail.specializations
        (.enum unit_test_detail.e16_bitand_composite)
        (.enum unit_test_detail.e32_bitand_flag) = false :=
  ⟨by decide,
    (bit_and_available_iff unit_test_detail.specializations
      unit_test_detail.e16_bitand_composite unit_test_detail.e32_bitand_flag).2.2.1
      (by decide)⟩

/-- C10: whenever `lhs & rhs` or `lhs | rhs` is well-formed for enumerated types
`L` and `R`, every value of the underlying type of `R` is a value of the
underlying type of `L`; converting `rhs` to the underlying type of `L` keeps
its value, and the integer computed by the built-in operator is a value of the
underlying type of `L`, so the cast back to `L` keeps it.  A pair with a
32-bit `R` and a 16-bit `L` is rejected for both operators whatever the
predicates say, as are the header's two pairs whose predicates are enabled. -/
theorem bit_and_or_lossless (s : Specializations) (L R : EnumType) :
    (has_bit_and s (.enum L) (.enum R) = true ∨ has_bit_or s (.enum L) (.enum R) = true →
      (∀ v, R.underlying.InRange v → L.underlying.InRange v) ∧
      ∀ (lhs : EnumVal L) (rhs : EnumVal R),
        L.underlying.wrap rhs.val = rhs.val ∧
        (operator_and lhs rhs).val
          = (Prvalue.band lhs.to_underlying rhs.to_underlying).val ∧
        (operator_or lhs rhs).val
          = (Prvalue.bor lhs.to_underlying rhs.to_underlying).val) ∧
    (L.underlying.bits = 16 → R.underlying.bits = 32 →
      has_bit_and s (.enum L) (.enum R) = false ∧
        has_bit_or s (.enum L) (.enum R) = false) ∧
    (enable_bit_enum_and unit_test_detail.specializations
        unit_test_detail.e16_bitand_composite (.enum unit_test_detail.e32_bitand_flag) = true ∧
      has_bit_and unit_test_detail.specializations
        (.enum unit_test_detail.e16_bitand_composite)
        (.enum unit_test_detail.e32_bitand_flag) = false ∧
      enable_bit_enum_or unit_test_detail.specializations
        unit_test_detail.e16_bitor_composite unit_test_detail.e32_bitor_flag = true ∧
      has_bit_or unit_test_detail.specializations
        (.enum unit_test_detail.e16_bitor_composite)
        (.enum unit_test_detail.e32_bitor_flag) = false) := by
  refine ⟨?_, ?_, by decide⟩
  · intro h
    have hl : list_init_from L R = true := by
      rcases h with h | h
      · exact list_init_of_has_bit_and h
      · exact list_init_of_has_bit_or h
    have hsub := (list_init_from_iff L R).1 hl
    refine ⟨(represents_iff _ _).2 hsub, fun lhs rhs => ⟨?_, ?_, ?_⟩⟩
    · exact wrap_of_inRange (inRange_of_represents hsub rhs.inRange)
    · rw [operator_and_val hl,
        band_val lhs.to_underlying rhs.to_underlying lhs.inRange rhs.inRange hsub]
      rfl
    · rw [operator_or_val hl,
        bor_val lhs.to_underlying rhs.to_underlying lhs.inRange rhs.inRange hsub]
      rfl
  · intro h16 h32
    have hn := not_list_init_of_wider L R (by omega)
    simp [has_bit_and, has_bit_and_enum, has_bit_or, hn]

/-- Witness for C10: the header's enabled 16-bit pair, and a 32-bit flag type
against a 16-bit composite type. -/
theorem bit_and_or_lossless_witness :
    (has_bit_and unit_test_detail.specializations (.enum unit_test_detail.e16_bitand_composite)
        (.enum unit_test_detail.e16_bitand_flag) = true ∧
      ∀ v, unit_test_detail.e16_bitand_flag.underlying.InRange v →
        unit_test_detail.e16_bitand_composite.underlying.InRange v) ∧
    (has_bit_and unit_test_detail.specializations (.enum unit_test_detail.e16_bitand_composite)
        (.enum unit_test_detail.e32_bitand_flag) = false ∧
      has_bit_or unit_test_detail.specializations (.enum unit_test_detail.e16_bitand_composite)
        (.enum unit_test_detail.e32_bitand_flag) = false) :=
  ⟨⟨by decide,
      ((bit_and_or_lossless unit_test_detail.specializations
        unit_test_detail.e16_bitand_composite unit_test_detail.e16_bitand_flag).1
        (Or.inl (by decide))).1⟩,
    (bit_and_or_lossless unit_test_detail.specializations
      unit_test_detail.e16_bitand_composite unit_test_detail.e32_bitand_flag).2.1
      (by decide) (by decide)⟩

/-! ## The negated operand, and independence of the capabilities -/

theorem has_bit_or_not_eq_false (s : Specializations) (A B : EnumType) :
    has_bit_or_not s (.enum A) (.enum B) = false := by
  cases h : has_bit_not_enum s B <;> simp [has_bit_or_not, bitnot_type, h, has_bit_or]

theorem has_bit_and_not_eq (s : Specializations) (A B : EnumType) :
    has_bit_and_not s (.enum A) (.enum B)
      = (has_bit_not s (.enum B) && has_bit_and s (.enum A) (.bitnot_result B)) := by
  cases h : has_bit_not_enum s B <;> simp [has_bit_and_not, bitnot_type, has_bit_not, h]

theorem has_bit_and_result_eq (s : Specializations) (A B : EnumType) :
    has_bit_and s (.enum A) (.bitnot_result B) = has_bit_and s (.enum A) (.enum B) := by
  simp only [has_bit_and, has_bit_and_enum]
  cases enable_bit_enum_and s A (.enum B) <;> simp

/-- C11: whenever `~B` is well-formed and bit-and is enabled for `(A, B)`, that
is `A & B` is well-formed, the struct returned by `~B` is accepted as the right
operand of `&` and `A & ~B` is well-formed (the overload for the struct has the
requirements of `A & B`: the predicate for `(A, B)` and no narrowing); `A | ~B`
and `A |= ~B` are ill-formed whatever the program specialises.  The header
asserts both for `e16_bitand_composite` and `~e16_bitand_flag`. -/
theorem negated_operand_in_and_not_or (s : Specializations) (A B : EnumType) :
    (has_bit_not s (.enum B) = true → has_bit_and s (.enum A) (.enum B) = true →
      has_bit_and s (.enum A) (.bitnot_result B) = true ∧
        has_bit_and_not s (.enum A) (.enum B) = true) ∧
    has_bit_and s (.enum A) (.bitnot_result B)
      = (enable_bit_enum_and s A (.enum B) && list_init_from A B) ∧
    has_bit_or s (.enum A) (.bitnot_result B) = false ∧
    has_bit_or_assign s (.enum A) (.bitnot_result B) = false ∧
    has_bit_or_not s (.enum A) (.enum B) = false ∧
    (has_bit_and unit_test_detail.specializations (.enum unit_test_detail.e16_bitand_composite)
        (.bitnot_result unit_test_detail.e16_bitand_flag) = true ∧
      has_bit_or unit_test_detail.specializations (.enum unit_test_detail.e16_bitand_composite)
        (.bitnot_result unit_test_detail.e16_bitand_flag) = false) := by
  refine ⟨?_, has_bit_and_result_eq s A B, rfl, rfl, has_bit_or_not_eq_false s A B, by decide⟩
  intro hn ha
  have h1 : has_bit_and s (.enum A) (.bitnot_result B) = true := by
    rw [has_bit_and_result_eq]; exact ha
  refine ⟨h1, ?_⟩
  rw [has_bit_and_not_eq, hn, h1]
  rfl

/-- Witness for C11: `e16_bitand_composite & ~e16_bitand_flag` under the
header's specialisations. -/
theorem negated_operand_in_and_not_or_witness :
    has_bit_not unit_test_detail.specializations (.enum unit_test_detail.e16_bitand_flag) = true ∧
      has_bit_and unit_test_detail.specializations
        (.enum unit_test_detail.e16_bitand_composite)
        (.enum unit_test_detail.e16_bitand_flag) = true ∧
      has_bit_and_not unit_test_detail.specializations
        (.enum unit_test_detail.e16_bitand_composite)
        (.enum unit_test_detail.e16_bitand_flag) = true :=
  ⟨by decide, by decide,
    ((negated_operand_in_and_not_or unit_test_detail.specializations
      unit_test_detail.e16_bitand_composite unit_test_detail.e16_bitand_flag).1
      (by decide) (by decide)).2⟩

/-- C12: the capabilities are independent.  Adding a specialisation of
`enable_bit_enum_and` to a program changes the well-formedness of no `|`, `|=`,
`~`, `!` or unary `+` expression, and adding a specialisation of
`enable_bit_enum_or` changes that of no `&`, `&=`, `~`, `!` or unary `+`
expression.  In a program whose only specialisation is
`enable_bit_enum_and<A, B>{true}` the predicate for `(A, B)` is true and none of
`A | B`, `A |= B`, `~`, `!`, unary `+` on `A` or `B` is well-formed; in a program
whose only specialisation is `enable_bit_enum_or<A, B>{true}` the predicate for
`(A, B)` is true and none of `A & B`, `A &= B`, `~`, `!`, unary `+` on `A` or `B`
is well-formed. -/
theorem capabilities_independent (s : Specializations) (A B : EnumType) :
    (∀ (R : Ty) (b : Bool) (X Y : Ty),
      has_bit_or (specialize_and s A R b) X Y = has_bit_or s X Y ∧
      has_bit_or_assign (specialize_and s A R b) X Y = has_bit_or_assign s X Y ∧
      has_bit_not (specialize_and s A R b) X = has_bit_not s X ∧
      has_bool_not (specialize_and s A R b) X = has_bool_not s X ∧
      has_unary_plus (specialize_and s A R b) X = has_unary_plus s X) ∧
    (∀ (b : Bool) (X Y : Ty),
      has_bit_and (specialize_or s A B b) X Y = has_bit_and s X Y ∧
      has_bit_and_assign (specialize_or s A B b) X Y = has_bit_and_assign s X Y ∧
      has_bit_not (specialize_or s A B b) X = has_bit_not s X ∧
      has_bool_not (specialize_or s A B b) X = has_bool_not s X ∧
      has_unary_plus (specialize_or s A B b) X = has_unary_plus s X) ∧
    (enable_bit_enum_and (specialize_and no_specializations A (.enum B) true) A (.enum B)
        = true ∧
      has_bit_or (specialize_and no_specializations A (.enum B) true) (.enum A) (.enum B)
        = false ∧
      has_bit_or_assign (specialize_and no_specializations A (.enum B) true) (.enum A)
        (.enum B) = false ∧
      ∀ E, has_bit_not (specialize_and no_specializations A (.enum B) true) (.enum E) = false ∧
        has_bool_not (specialize_and no_specializations A (.enum B) true) (.enum E) = false ∧
        has_unary_plus (specialize_and no_specializations A (.enum B) true) (.enum E)
          = false) ∧
    (enable_bit_enum_or (specialize_or no_specializations A B true) A B = true ∧
      has_bit_and (specialize_or no_specializations A B true) (.enum A) (.enum B) = false ∧
      has_bit_and_assign (specialize_or no_specializations A B true) (.enum A) (.enum B)
        = false ∧
      ∀ E, has_bit_not (specialize_or no_specializations A B true) (.enum E) = false ∧
        has_bool_not (specialize_or no_specializations A B true) (.enum E) = false ∧
        has_unary_plus (specialize_or no_specializations A B true) (.enum E) = false) := by
  refine ⟨?_, ?_, ?_, ?_⟩
  · intro R b X Y
    refine ⟨?_, ?_, ?_, ?_, ?_⟩
    · cases X <;> cases Y <;> rfl
    · cases X <;> cases Y <;> rfl
    · cases X <;> rfl
    · cases X <;> rfl
    · cases X <;> rfl
  · intro b X Y
    refine ⟨?_, ?_, ?_, ?_, ?_⟩
    · cases X <;> cases Y <;> rfl
    · cases X <;> cases Y <;> rfl
    · cases X <;> rfl
    · cases X <;> rfl
    · cases X <;> rfl
  · refine ⟨?_, ?_, ?_, ?_⟩
    · simp [enable_bit_enum_and, enable_bit_enum_and_enum, specialize_and]
    · simp [has_bit_or, enable_bit_enum_or, enable_bit_enum, specialize_and,
        no_specializations]
    · simp [has_bit_or_assign, enable_bit_enum_or, enable_bit_enum, specialize_and,
        no_specializations]
    · intro E
      simp [has_bit_not, has_bit_not_enum, has_bool_not, has_unary_plus,
        enable_bit_enum_bitnot, enable_bit_enum_boolnot, enable_bit_enum, specialize_and,
        no_specializations]
  · refine ⟨?_, ?_, ?_, ?_⟩
    · simp [enable_bit_enum_or, specialize_or]
    · simp [has_bit_and, has_bit_and_enum, enable_bit_enum_and, enable_bit_enum_and_enum,
        enable_bit_enum, specialize_or, no_specializations]
    · simp [has_bit_and_assign, enable_bit_enum_and, enable_bit_enum_and_enum,
        enable_bit_enum, specialize_or, no_specializations]
    · intro E
      simp [has_bit_not, has_bit_not_enum, has_bool_not, has_unary_plus,
        enable_bit_enum_bitnot, enable_bit_enum_boolnot, enable_bit_enum, specialize_or,
        no_specializations]

/-! ## Compound assignment against the binary operator -/

/-- C13, as stated, fails: in a program that enables bit-not for `e16_flag` and
bit-and for `(e16_composite, e16_flag)` and specialises
`enable_bit_enum_and<e16_composite, decltype(~e16_flag{})>` to `false`, the
expression `lhs & ~flag` is well-formed and yields `e16_composite`, yet
`lhs &= ~flag` is ill-formed. -/
theorem and_assign_not_exactly_and :
    ¬ (∀ (s : Specializations) (L O : EnumType), has_bit_not s (.enum O) = true →
        (has_bit_and_assign s (.enum L) (.bitnot_result O) = true ↔
          has_bit_and s (.enum L) (.bitnot_result O) = true)) := by
  intro h
  have h1 := h example_types.assign_disabled example_types.e16_composite
    example_types.e16_flag (by decide)
  have h2 : has_bit_and_assign example_types.assign_disabled
      (.enum example_types.e16_composite) (.bitnot_result example_types.e16_flag) = false := by
    decide
  have h3 := h1.2 (by decide)
  rw [h2] at h3
  exact Bool.noConfusion h3

/-- C13, amended: for an enumerated right operand type, `lhs &= rhs` is
well-formed exactly when `lhs & rhs` is, and `lhs |= rhs` exactly when
`lhs | rhs` is (both operators return `lhs_type`).  For the struct returned by
`~O`, `lhs &= rhs` is well-formed exactly when `lhs & rhs` is well-formed and
`enable_bit_enum_and<lhs_type, rhs_type>` is true; that is the case whenever
`lhs & rhs` is well-formed, bit-not is enabled for `O` and the program does not
specialise that predicate.  `lhs | rhs` and `lhs |= rhs` are both ill-formed
for the struct. -/
theorem assign_available_iff (s : Specializations) (L : EnumType) :
    (∀ R : EnumType,
      has_bit_and_assign s (.enum L) (.enum R) = has_bit_and s (.enum L) (.enum R) ∧
      has_bit_or_assign s (.enum L) (.enum R) = has_bit_or s (.enum L) (.enum R)) ∧
    (∀ O : EnumType,
      has_bit_and_assign s (.enum L) (.bitnot_result O)
        = (enable_bit_enum_and s L (.bitnot_result O) &&
            has_bit_and s (.enum L) (.bitnot_result O)) ∧
      has_bit_or_assign s (.enum L) (.bitnot_result O) = false ∧
      has_bit_or s (.enum L) (.bitnot_result O) = false) ∧
    (∀ O : EnumType, has_bit_not s (.enum O) = true →
      s.bit_and L (.bitnot_result O) = none →
      has_bit_and_assign s (.enum L) (.bitnot_result O)
        = has_bit_and s (.enum L) (.bitnot_result O)) := by
  refine ⟨?_, ?_, ?_⟩
  · intro R
    refine ⟨?_, ?_⟩
    · simp only [has_bit_and_assign, has_bit_and, has_bit_and_enum]
      cases enable_bit_enum_and s L (.enum R) <;> simp
    · simp only [has_bit_or_assign, has_bit_or]
      cases enable_bit_enum_or s L R <;> simp
  · intro O
    exact ⟨rfl, rfl, rfl⟩
  · intro O hn hs
    have hn2 : enable_bit_enum_bitnot s O = true := hn
    simp only [has_bit_and_assign, has_bit_and, has_bit_and_enum, enable_bit_enum_and, hs,
      hn2, Option.getD_none, Bool.true_and]
    cases enable_bit_enum_and_enum s L O <;> simp

/-- Witness for C13: under the header's specialisations `&=` with
`~e16_bitand_flag` is well-formed, as `&` is. -/
theorem assign_available_iff_witness :
    has_bit_not unit_test_detail.specializations (.enum unit_test_detail.e16_bitand_flag) = true ∧
      unit_test_detail.specializations.bit_and unit_test_detail.e16_bitand_composite
        (.bitnot_result unit_test_detail.e16_bitand_flag) = none ∧
      has_bit_and_assign unit_test_detail.specializations
        (.enum unit_test_detail.e16_bitand_composite)
        (.bitnot_result unit_test_detail.e16_bitand_flag) = true :=
  ⟨by decide, by decide,
    ((assign_available_iff unit_test_detail.specializations
      unit_test_detail.e16_bitand_composite).2.2 unit_test_detail.e16_bitand_flag
      (by decide) (by decide)).trans (by decide)⟩

/-! ## Defaults -/

/-- C14: every capability is disabled by default.  For an enumerated type `E`
with neither `enable_bit_enum<E, E>` nor `enable_bit_enum_bitnot<E>` specialised
to true, `~` is ill-formed on `E`; with neither `enable_bit_enum<E, E>` nor
`enable_bit_enum_boolnot<E>` specialised to true, `!` and unary `+` are
ill-formed.  For a pair `(L, R)` with neither `enable_bit_enum<L, R>` nor
`enable_bit_enum_and<L, R>` specialised to true, `&` and `&=` are ill-formed,
also with `~R` as right operand; with neither `enable_bit_enum<L, R>` nor
`enable_bit_enum_or<L, R>` specialised to true, `|` and `|=` are ill-formed.  In
a program without specialisations no operator is well-formed on any operand
types. -/
theorem capabilities_default_disabled (s : Specializations) :
    (∀ E : EnumType, s.bit_enum E (.enum E) ≠ some true → s.bitnot E ≠ some true →
      has_bit_not s (.enum E) = false ∧ has_bit_not s (.bitnot_result E) = false) ∧
    (∀ E : EnumType, s.bit_enum E (.enum E) ≠ some true → s.boolnot E ≠ some true →
      has_bool_not s (.enum E) = false ∧ has_unary_plus s (.enum E) = false) ∧
    (∀ L R : EnumType, s.bit_enum L (.enum R) ≠ some true →
      s.bit_and L (.enum R) ≠ some true →
      has_bit_and s (.enum L) (.enum R) = false ∧
      has_bit_and_assign s (.enum L) (.enum R) = false ∧
      has_bit_and s (.enum L) (.bitnot_result R) = false ∧
      has_bit_and_assign s (.enum L) (.bitnot_result R) = false) ∧
    (∀ L R : EnumType, s.bit_enum L (.enum R) ≠ some true → s.bit_or L R ≠ some true →
      has_bit_or s (.enum L) (.enum R) = false ∧
      has_bit_or_assign s (.enum L) (.enum R) = false) ∧
    (∀ X Y : Ty,
      has_bit_not no_specializations X = false ∧
      has_bool_not no_specializations X = false ∧
      has_unary_plus no_specializations X = false ∧
      has_bit_and no_specializations X Y = false ∧
      has_bit_and_assign no_specializations X Y = false ∧
      has_bit_or no_specializations X Y = false ∧
      has_bit_or_assign no_specializations X Y = false) := by
  have getD_false : ∀ (o d : Option Bool), o ≠ some true → d ≠ some true →
      o.getD (d.getD false) = false := by
    intro o d ho hd
    rcases o with _ | _ | _ <;> rcases d with _ | _ | _ <;> simp_all
  refine ⟨?_, ?_, ?_, ?_, ?_⟩
  · intro E h1 h2
    have h : enable_bit_enum_bitnot s E = false := getD_false _ _ h2 h1
    simp [has_bit_not, has_bit_not_enum, h]
  · intro E h1 h2
    have h : enable_bit_enum_boolnot s E = false := getD_false _ _ h2 h1
    simp [has_bool_not, has_unary_plus, h]
  · intro L R h1 h2
    have h : enable_bit_enum_and_enum s L R = false := getD_false _ _ h2 h1
    simp [has_bit_and, has_bit_and_assign, has_bit_and_enum, enable_bit_enum_and, h]
  · intro L R h1 h2
    have h : enable_bit_enum_or s L R = false := getD_false _ _ h2 h1
    simp [has_bit_or, has_bit_or_assign, h]
  · intro X Y
    cases X <;> cases Y <;>
      simp [has_bit_not, has_bit_not_enum, has_bool_not, has_unary_plus, has_bit_and,
        has_bit_and_assign, has_bit_and_enum, has_bit_or, has_bit_or_assign,
        enable_bit_enum_and, enable_bit_enum_and_enum, enable_bit_enum_or,
        enable_bit_enum_bitnot, enable_bit_enum_boolnot, enable_bit_enum, no_specializations]

/-- Witness for C14: the header's unrelated pairs
`(e16_bitand_composite, e8_bitnot)` and `(e16_bitor_composite, e8_bitnot)`. -/
theorem capabilities_default_disabled_witness :
    has_bit_and unit_test_detail.specializations (.enum unit_test_detail.e16_bitand_composite)
        (.enum unit_test_detail.e8_bitnot) = false ∧
      has_bit_or unit_test_detail.specializations (.enum unit_test_detail.e16_bitor_composite)
        (.enum unit_test_detail.e8_bitnot) = false ∧
      has_bit_not unit_test_detail.specializations (.enum unit_test_detail.e8_boolnot) = false ∧
      has_bool_not unit_test_detail.specializations (.enum unit_test_detail.e8_bitnot) = false :=
  ⟨((capabilities_default_disabled unit_test_detail.specializations).2.2.1
      unit_test_detail.e16_bitand_composite unit_test_detail.e8_bitnot
      (by decide) (by decide)).1,
    ((capabilities_default_disabled unit_test_detail.specializations).2.2.2.1
      unit_test_detail.e16_bitor_composite unit_test_detail.e8_bitnot
      (by decide) (by decide)).1,
    ((capabilities_default_disabled unit_test_detail.specializations).1
      unit_test_detail.e8_boolnot (by decide) (by decide)).1,
    ((capabilities_default_disabled unit_test_detail.specializations).2.1
      unit_test_detail.e8_bitnot (by decide) (by decide)).1⟩

/-! ## The base predicate -/

theorem list_init_from_self (E : EnumType) : list_init_from E E = true := by
  simp [list_init_from]

/-- C15, as stated, fails: in a program whose only specialisation is
`enable_bit_enum<e16_composite, e32_flag>{true}`, with a 16-bit left and a
32-bit right underlying type, the base predicate is true and no per-operator
predicate is specialised, yet none of `&`, `&=`, `|`, `|=` is well-formed for
the pair. -/
theorem base_predicate_does_not_enable_narrowing_pair :
    ¬ (∀ (s : Specializations) (L R : EnumType), enable_bit_enum s L (.enum R) = true →
        s.bit_and L (.enum R) = none → s.bit_or L R = none →
        has_bit_and s (.enum L) (.enum R) = true ∧
        has_bit_and_assign s (.enum L) (.enum R) = true ∧
        has_bit_or s (.enum L) (.enum R) = true ∧
        has_bit_or_assign s (.enum L) (.enum R) = true) := by
  intro h
  have h1 := (h example_types.base_narrowing example_types.e16_composite
    example_types.e32_flag (by decide) (by decide) (by decide)).1
  have h2 : has_bit_and example_types.base_narrowing (.enum example_types.e16_composite)
      (.enum example_types.e32_flag) = false := by decide
  rw [h2] at h1
  exact Bool.noConfusion h1

/-- C15, amended: if `enable_bit_enum<lhs_type, rhs_type>` is true and the
program specialises neither `enable_bit_enum_and` nor `enable_bit_enum_or` for
the pair, then both per-operator predicates are true for the pair, and each of
`lhs & rhs`, `lhs &= rhs`, `lhs | rhs`, `lhs |= rhs` is well-formed exactly when
the underlying type of `lhs_type` can represent every value of the underlying
type of `rhs_type`.  For `lhs_type = rhs_type`, with `enable_bit_enum_bitnot`
and `enable_bit_enum_boolnot` not specialised either, all of `&`, `&=`, `|`,
`|=`, `~`, `!` and unary `+` are well-formed. -/
theorem base_predicate_enables_all (s : Specializations) (L R : EnumType)
    (hb : enable_bit_enum s L (.enum R) = true) (ha : s.bit_and L (.enum R) = none)
    (ho : s.bit_or L R = none) :
    enable_bit_enum_and s L (.enum R) = true ∧
    enable_bit_enum_or s L R = true ∧
    has_bit_and s (.enum L) (.enum R) = list_init_from L R ∧
    has_bit_and_assign s (.enum L) (.enum R) = list_init_from L R ∧
    has_bit_or s (.enum L) (.enum R) = list_init_from L R ∧
    has_bit_or_assign s (.enum L) (.enum R) = list_init_from L R ∧
    (list_init_from L R = true ↔ ∀ v, R.underlying.InRange v → L.underlying.InRange v) ∧
    (L = R → s.bitnot L = none → s.boolnot L = none →
      has_bit_and s (.enum L) (.enum R) = true ∧
      has_bit_and_assign s (.enum L) (.enum R) = true ∧
      has_bit_or s (.enum L) (.enum R) = true ∧
      has_bit_or_assign s (.enum L) (.enum R) = true ∧
      has_bit_not s (.enum L) = true ∧
      has_bool_not s (.enum L) = true ∧
      has_unary_plus s (.enum L) = true) := by
  have h1 : enable_bit_enum_and s L (.enum R) = true := by
    simp [enable_bit_enum_and, enable_bit_enum_and_enum, ha, hb]
  have h2 : enable_bit_enum_or s L R = true := by
    simp [enable_bit_enum_or, ho, hb]
  have h3 : has_bit_and s (.enum L) (.enum R) = list_init_from L R := by
    simp [has_bit_and, has_bit_and_enum, h1]
  have h4 : has_bit_and_assign s (.enum L) (.enum R) = list_init_from L R := by
    simp [has_bit_and_assign, has_bit_and, has_bit_and_enum, h1]
  have h5 : has_bit_or s (.enum L) (.enum R) = list_init_from L R := by
    simp [has_bit_or, h2]
  have h6 : has_bit_or_assign s (.enum L) (.enum R) = list_init_from L R := by
    simp [has_bit_or_assign, has_bit_or, h2]
  refine ⟨h1, h2, h3, h4, h5, h6, ?_, ?_⟩
  · rw [list_init_from_iff, represents_iff]
  · intro hLR hn hbn
    subst hLR
    have hl := list_init_from_self L
    refine ⟨by rw [h3, hl], by rw [h4, hl], by rw [h5, hl], by rw [h6, hl], ?_, ?_, ?_⟩
    · simp [has_bit_not, has_bit_not_enum, enable_bit_enum_bitnot, hn, hb]
    · simp [has_bool_not, enable_bit_enum_boolnot, hbn, hb]
    · simp [has_unary_plus, enable_bit_enum_boolnot, hbn, hb]

/-- Witness for C15: a program whose only specialisation is
`enable_bit_enum<e16_self, e16_self>{true}`. -/
theorem base_predicate_enables_all_witness :
    enable_bit_enum example_types.base_self example_types.e16_self
        (.enum example_types.e16_self) = true ∧
      has_bit_and example_types.base_self (.enum example_types.e16_self)
        (.enum example_types.e16_self) = true ∧
      has_bit_not example_types.base_self (.enum example_types.e16_self) = true :=
  ⟨by decide,
    ((base_predicate_enables_all example_types.base_self example_types.e16_self
      example_types.e16_self (by decide) (by decide) (by decide)).2.2.2.2.2.2.2
      rfl (by decide) (by decide)).1,
    ((base_predicate_enables_all example_types.base_self example_types.e16_self
      example_types.e16_self (by decide) (by decide) (by decide)).2.2.2.2.2.2.2
      rfl (by decide) (by decide)).2.2.2.2.1⟩

/-! ## Types of `~e` and `~~e`; `+e` against `!!e` -/

/-- C16: for every enumerated type `E` for which `~e` is well-formed, the type
of `~e` is the struct `result` of `operator~`, a type different from `E` whose
member `original_type` is `E`; `~~e` is well-formed and its type is `E` itself,
not a struct around another struct. -/
theorem bitnot_types (s : Specializations) (E : EnumType)
    (h : has_bit_not s (.enum E) = true) :
    bitnot_type s (.enum E) = some (.bitnot_result E) ∧
    Ty.bitnot_result E ≠ Ty.enum E ∧
    (Ty.bitnot_result E).original_type = some E ∧
    bitnot_type s (.bitnot_result E) = some (.enum E) ∧
    (bitnot_type s (.enum E)).bind (bitnot_type s) = some (.enum E) := by
  have h1 : has_bit_not_enum s E = true := h
  have h2 : enable_bit_enum_bitnot s E = true := h
  have e1 : bitnot_type s (.enum E) = some (.bitnot_result E) := by
    simp [bitnot_type, h1]
  have e2 : bitnot_type s (.bitnot_result E) = some (.enum E) := by
    simp [bitnot_type, h1, h2]
  refine ⟨e1, ?_, rfl, e2, ?_⟩
  · intro hne
    exact Ty.noConfusion hne
  · rw [e1]
    exact e2

/-- Witness for C16: the static assertions on the types of `~e8_bitnot` and
`~~e8_bitnot`. -/
theorem bitnot_types_witness :
    has_bit_not unit_test_detail.specializations (.enum unit_test_detail.e8_bitnot) = true ∧
      bitnot_type unit_test_detail.specializations (.enum unit_test_detail.e8_bitnot)
        = some (.bitnot_result unit_test_detail.e8_bitnot) ∧
      (bitnot_type unit_test_detail.specializations (.enum unit_test_detail.e8_bitnot)).bind
          (bitnot_type unit_test_detail.specializations)
        = some (.enum unit_test_detail.e8_bitnot) :=
  ⟨by decide,
    (bitnot_types unit_test_detail.specializations unit_test_detail.e8_bitnot (by decide)).1,
    (bitnot_types unit_test_detail.specializations unit_test_detail.e8_bitnot
      (by decide)).2.2.2.2⟩

/-- C17: for every enumerated type for which `!e` is well-formed, `+e` is
well-formed too, and the truth value of `+e` equals `!!e`: `+e` is non-zero
exactly when `!e` is false. -/
theorem unary_plus_truth_is_double_boolnot (s : Specializations) (E : EnumType)
    (h : has_bool_not s (.enum E) = true) (e : EnumVal E) :
    has_unary_plus s (.enum E) = true ∧
    (operator_plus e).to_bool = !(operator_boolnot e) ∧
    ((operator_plus e).val ≠ 0 ↔ (!(operator_boolnot e)) = true) := by
  have hz : operator_boolnot e = decide (e.val = 0) := by
    simp only [operator_boolnot, Prvalue.lnot, Prvalue.promoted, Prvalue.cast,
      EnumVal.to_underlying]
    simp only [promote_wrap_of_inRange e.inRange]
  have hp : (operator_plus e).val = e.val := rfl
  refine ⟨h, ?_, ?_⟩
  · simp [Prvalue.to_bool, hp, hz]
  · simp [hp, hz]

/-- Witness for C17: `+e8_boolnot{1}` is true, as `!!e8_boolnot{1}` is. -/
theorem unary_plus_truth_is_double_boolnot_witness :
    has_bool_not unit_test_detail.specializations (.enum unit_test_detail.e8_boolnot) = true ∧
      (operator_plus (EnumVal.lit unit_test_detail.e8_boolnot 1 (by decide))).to_bool
        = !(operator_boolnot (EnumVal.lit unit_test_detail.e8_boolnot 1 (by decide))) :=
  ⟨by decide,
    (unary_plus_truth_is_double_boolnot unit_test_detail.specializations
      unit_test_detail.e8_boolnot (by decide)
      (EnumVal.lit unit_test_detail.e8_boolnot 1 (by decide))).2.1⟩

/-! ## Masking with a negated flag -/

theorem pattern_wrap (T : IntType) (hT : T ≠ .bool) (v : Int) :
    T.pattern (T.wrap v) = T.pattern v := by
  have h : T.wrap v % 2 ^ T.bits = v % 2 ^ T.bits := by
    rcases T with _ | ⟨_ | _, _ | _ | _ | _⟩ <;>
      simp [IntType.wrap, IntType.bits, IntType.isSigned, Width.bits] at hT ⊢ <;>
      omega
  unfold IntType.pattern
  rw [h]

theorem testBit_wrap (T : IntType) (hT : T ≠ .bool) (v : Int) {i : Nat} (hi : i < T.bits) :
    (T.wrap v).testBit i = v.testBit i := by
  have h1 := testBit_pattern T (T.wrap v) i
  have h2 := testBit_pattern T v i
  rw [pattern_wrap T hT, h2] at h1
  simpa [hi] using h1.symm

theorem operator_bitnot_value_wrap {E : EnumType} (hE : E.underlying ≠ .bool)
    (e : EnumVal E) :
    (operator_bitnot e).value = E.underlying.wrap (Int.lnot e.val) := by
  rw [operator_bitnot_value hE, lnot_eq]
  rcases e with ⟨v, hv⟩
  rcases E with ⟨i, _ | ⟨_ | _, _ | _ | _ | _⟩⟩ <;>
    simp [IntType.wrap, IntType.bits, IntType.isSigned, Width.bits, IntType.InRange,
      IntType.minVal, IntType.maxVal] at hv hE ⊢ <;>
    omega

theorem ne_bool_of_represents {A B : IntType}
    (hsub : A.minVal ≤ B.minVal ∧ B.maxVal ≤ A.maxVal) (hB : B ≠ .bool) : A ≠ .bool := by
  rcases A with _ | ⟨_ | _, _ | _ | _ | _⟩ <;>
  rcases B with _ | ⟨_ | _, _ | _ | _ | _⟩ <;>
    simp [IntType.bits, IntType.isSigned, Width.bits, IntType.minVal, IntType.maxVal]
      at hsub hB ⊢

theorem eq_zero_of_pattern {T : IntType} {v : Int} (hv : T.InRange v)
    (hp : T.pattern v = 0) : v = 0 := by
  have h1 : (0 : Int) < 2 ^ T.bits := by positivity
  have h2 := Int.emod_nonneg v (ne_of_gt h1)
  have h3 : v % 2 ^ T.bits = 0 := by
    unfold IntType.pattern at hp
    have := Int.toNat_of_nonneg h2
    rw [hp] at this
    exact_mod_cast this.symm
  rcases T with _ | ⟨_ | _, _ | _ | _ | _⟩ <;>
    simp [IntType.bits, IntType.isSigned, Width.bits, IntType.InRange, IntType.minVal,
      IntType.maxVal]
      at hv h3 <;>
    omega

theorem pattern_zero (T : IntType) : T.pattern 0 = 0 := by
  simp [IntType.pattern]

theorem testBit_unsigned_high {T : IntType} {v : Int} (hs : T.isSigned = false)
    (hv : T.InRange v) {i : Nat} (hi : T.bits ≤ i) : v.testBit i = false := by
  simp only [IntType.InRange, IntType.minVal, IntType.maxVal, hs, Bool.false_eq_true,
    if_false] at hv
  obtain ⟨m, rfl⟩ := Int.eq_ofNat_of_zero_le hv.1
  have hm : m < 2 ^ T.bits := by
    have h : (m : Int) < 2 ^ T.bits := by omega
    exact_mod_cast h
  show m.testBit i = false
  exact Nat.testBit_lt_two_pow (lt_of_lt_of_le hm (Nat.pow_le_pow_right (by norm_num) hi))

theorem land_compl_self {T : IntType} (hT : T ≠ .bool) {v : Int} (hv : T.InRange v) :
    Int.land (T.wrap (Int.lnot v)) v = 0 := by
  have hr : T.InRange (T.wrap (Int.lnot v)) := (T.convert (Int.lnot v)).2
  apply eq_zero_of_pattern (land_inRange hr hv)
  rw [pattern_land, pattern_wrap T hT]
  apply Nat.eq_of_testBit_eq
  intro i
  rw [Nat.testBit_and, testBit_pattern, testBit_pattern, Int.testBit_lnot]
  cases decide (i < T.bits) <;> cases v.testBit i <;> simp

theorem wrap_lnot_eq (A B : IntType) (hsub : A.minVal ≤ B.minVal ∧ B.maxVal ≤ A.maxVal)
    (hc : B.isSigned = true ∨ B.bits = A.bits) {v : Int} (hv : B.InRange v) :
    A.wrap (Int.lnot v) = B.wrap (Int.lnot v) := by
  rw [lnot_eq]
  rcases A with _ | ⟨_ | _, _ | _ | _ | _⟩ <;>
  rcases B with _ | ⟨_ | _, _ | _ | _ | _⟩ <;>
    simp [IntType.wrap, IntType.bits, IntType.isSigned, Width.bits, IntType.InRange, IntType.minVal,
      IntType.maxVal] at hv hsub hc ⊢ <;>
    omega

theorem list_init_of_has_bit_and_not {s : Specializations} {L R : EnumType}
    (h : has_bit_and_not s (.enum L) (.enum R) = true) : list_init_from L R = true := by
  rw [has_bit_and_not_eq, Bool.and_eq_true] at h
  exact list_init_of_has_bit_and_result h.2

/-- C18, as stated, fails: with a 32-bit `e32_composite` and a 16-bit
`e16_flag`, `e32_composite{0x10001} & ~e16_flag{1}` is well-formed and is
`e32_composite{0}`, whereas the 32-bit complement of 1 and-ed with 0x10001 is
0x10000: bit 16 of the left operand, which is not set in the flag, is cleared
as well. -/
theorem mask_off_clears_high_bits :
    ¬ (∀ (s : Specializations) (L R : EnumType),
        has_bit_and_not s (.enum L) (.enum R) = true →
        ∀ (lhs : EnumVal L) (rhs : EnumVal R),
          (operator_and_result lhs (operator_bitnot rhs)).val
            = Int.land lhs.val (L.underlying.wrap (Int.lnot rhs.val))) := by
  intro h
  have h1 := h example_types.wide_composite example_types.e32_composite
    example_types.e16_flag (by decide)
    (EnumVal.lit example_types.e32_composite 65537 (by decide))
    (EnumVal.lit example_types.e16_flag 1 (by decide))
  revert h1
  decide

/-- C18, amended: whenever `lhs & ~rhs` is well-formed for `lhs` of `L` and `rhs`
of `R`, and the underlying type of `R` is not `bool`, the underlying integer of
the result is that of `lhs` and-ed with the complement of `rhs` taken at the
width of `R` and then converted to the underlying type of `L`.  Every bit below
the width of `R` is cleared if set in `rhs` and otherwise kept.  If the
underlying type of `R` is signed or as wide as that of `L`, this is the
complement at the width of `L` and every bit of `lhs` not set in `rhs` is kept;
if it is unsigned, every bit of the result at or above the width of `R` is
clear. -/
theorem mask_off_at_flag_width (s : Specializations) (L R : EnumType)
    (hR : R.underlying ≠ .bool)
    (h : has_bit_and_not s (.enum L) (.enum R) = true) (lhs : EnumVal L) (rhs : EnumVal R) :
    (operator_and_result lhs (operator_bitnot rhs)).val
      = Int.land lhs.val (L.underlying.wrap (R.underlying.wrap (Int.lnot rhs.val))) ∧
    L.underlying.wrap (R.underlying.wrap (Int.lnot rhs.val))
      = R.underlying.wrap (Int.lnot rhs.val) ∧
    (∀ i, i < R.underlying.bits →
      (operator_and_result lhs (operator_bitnot rhs)).val.testBit i
        = (lhs.val.testBit i && !rhs.val.testBit i)) ∧
    (R.underlying.isSigned = true ∨ R.underlying.bits = L.underlying.bits →
      (operator_and_result lhs (operator_bitnot rhs)).val
        = Int.land lhs.val (L.underlying.wrap (Int.lnot rhs.val)) ∧
      ∀ i, i < L.underlying.bits →
        (operator_and_result lhs (operator_bitnot rhs)).val.testBit i
          = (lhs.val.testBit i && !rhs.val.testBit i)) ∧
    (R.underlying.isSigned = false → ∀ i, R.underlying.bits ≤ i →
      (operator_and_result lhs (operator_bitnot rhs)).val.testBit i = false) := by
  have hl := list_init_of_has_bit_and_not h
  have hsub := (list_init_from_iff L R).1 hl
  have hv := operator_and_result_val hl lhs (operator_bitnot rhs)
  have hn := operator_bitnot_value_wrap hR rhs
  have hL : L.underlying ≠ .bool := ne_bool_of_represents hsub hR
  have hr : R.underlying.InRange (R.underlying.wrap (Int.lnot rhs.val)) :=
    (R.underlying.convert (Int.lnot rhs.val)).2
  have hw : L.underlying.wrap (R.underlying.wrap (Int.lnot rhs.val))
      = R.underlying.wrap (Int.lnot rhs.val) :=
    wrap_of_inRange (inRange_of_represents hsub hr)
  rw [hn] at hv
  refine ⟨by rw [hw, hv], hw, ?_, ?_, ?_⟩
  · intro i hi
    rw [hv, Int.testBit_land, testBit_wrap _ hR _ hi, Int.testBit_lnot]
  · intro hc
    have he := wrap_lnot_eq L.underlying R.underlying hsub hc rhs.inRange
    refine ⟨by rw [hv, he], ?_⟩
    intro i hi
    rw [hv, ← he, Int.testBit_land, testBit_wrap _ hL _ hi, Int.testBit_lnot]
  · intro hs i hi
    rw [hv, Int.testBit_land, testBit_unsigned_high hs hr hi]
    simp

/-- Witness for C18: `e16_bitand_composite{3} & ~e16_bitand_flag{1}` under the
header's specialisations is `e16_bitand_composite{2}`. -/
theorem mask_off_at_flag_width_witness :
    unit_test_detail.e16_bitand_flag.underlying ≠ .bool ∧
    has_bit_and_not unit_test_detail.specializations
        (.enum unit_test_detail.e16_bitand_composite)
        (.enum unit_test_detail.e16_bitand_flag) = true ∧
      (operator_and_result (EnumVal.lit unit_test_detail.e16_bitand_composite 3 (by decide))
        (operator_bitnot (EnumVal.lit unit_test_detail.e16_bitand_flag 1 (by decide)))).val
        = 2 :=
  ⟨by decide, by decide,
    ((mask_off_at_flag_width unit_test_detail.specializations
      unit_test_detail.e16_bitand_composite unit_test_detail.e16_bitand_flag (by decide)
      (by decide)
      (EnumVal.lit unit_test_detail.e16_bitand_composite 3 (by decide))
      (EnumVal.lit unit_test_detail.e16_bitand_flag 1 (by decide))).1).trans (by decide)⟩

/-- Whenever both `x & f` and `x & ~f` are well-formed for `x` of `L` and `f` of
`R`, and the underlying type of `R` is not `bool`, `(x & ~f) & f` has
underlying integer zero. -/
theorem cleared_flag_tests_clear (s : Specializations) (L R : EnumType)
    (hR : R.underlying ≠ .bool) (h1 : has_bit_and s (.enum L) (.enum R) = true)
    (h2 : has_bit_and_not s (.enum L) (.enum R) = true) (x : EnumVal L) (f : EnumVal R) :
    (operator_and (operator_and_result x (operator_bitnot f)) f).val = 0 := by
  have hl := list_init_of_has_bit_and h1
  have _hl2 := list_init_of_has_bit_and_not h2
  have hsub := (list_init_from_iff L R).1 hl
  have hv1 := operator_and_result_val hl x (operator_bitnot f)
  have hv2 := operator_and_val hl (operator_and_result x (operator_bitnot f)) f
  have hn := operator_bitnot_value_wrap hR f
  have hz := land_compl_self hR f.inRange
  apply eq_zero_of_pattern (operator_and (operator_and_result x (operator_bitnot f)) f).inRange
  rw [hv2, hv1, hn, pattern_land, pattern_land, Nat.land_assoc, ← pattern_land, hz,
    pattern_zero, Nat.and_zero]

/-- The expression `(e16_bitand_composite{3} & ~e16_bitand_flag{1}) &
e16_bitand_flag{1}` under the header's specialisations is zero. -/
theorem cleared_flag_tests_clear_e16 :
    has_bit_and unit_test_detail.specializations (.enum unit_test_detail.e16_bitand_composite)
        (.enum unit_test_detail.e16_bitand_flag) = true ∧
      has_bit_and_not unit_test_detail.specializations
        (.enum unit_test_detail.e16_bitand_composite)
        (.enum unit_test_detail.e16_bitand_flag) = true ∧
      (operator_and
        (operator_and_result (EnumVal.lit unit_test_detail.e16_bitand_composite 3 (by decide))
          (operator_bitnot (EnumVal.lit unit_test_detail.e16_bitand_flag 1 (by decide))))
        (EnumVal.lit unit_test_detail.e16_bitand_flag 1 (by decide))).val = 0 :=
  ⟨by decide, by decide,
    cleared_flag_tests_clear unit_test_detail.specializations
      unit_test_detail.e16_bitand_composite unit_test_detail.e16_bitand_flag (by decide)
      (by decide) (by decide)
      (EnumVal.lit unit_test_detail.e16_bitand_composite 3 (by decide))
      (EnumVal.lit unit_test_detail.e16_bitand_flag 1 (by decide))⟩

/-- C19 fails on the code for a flag type whose underlying type is `bool`:
with bit-not enabled for `e_bool` and bit-and enabled for
`(e8_composite, e_bool)`, both `x & f` and `x & ~f` are well-formed, `~e_bool{true}`
stores `true`, and `(e8_composite{3} & ~e_bool{true}) & e_bool{true}` has
underlying integer 1, not 0. -/
theorem flag_of_bool_not_cleared :
    has_bit_and example_types.bool_flag (.enum example_types.e8_composite)
        (.enum example_types.e_bool) = true ∧
    has_bit_and_not example_types.bool_flag (.enum example_types.e8_composite)
        (.enum example_types.e_bool) = true ∧
    (operator_bitnot (EnumVal.lit example_types.e_bool 1 (by decide))).value = 1 ∧
    (operator_and
      (operator_and_result (EnumVal.lit example_types.e8_composite 3 (by decide))
        (operator_bitnot (EnumVal.lit example_types.e_bool 1 (by decide))))
      (EnumVal.lit example_types.e_bool 1 (by decide))).val = 1 := by
  decide

/-- C20: for enumerated types `A` and `B` with bit-not enabled for `B`, `A & ~B`
is well-formed exactly when `A & B` is; a pair whose predicate is true but
whose right underlying type is wider than the left one is rejected for both. -/
theorem and_not_available_iff_and (s : Specializations) (A B : EnumType)
    (h : has_bit_not s (.enum B) = true) :
    (has_bit_and_not s (.enum A) (.enum B) = true ↔
      has_bit_and s (.enum A) (.enum B) = true) ∧
    has_bit_and s (.enum A) (.bitnot_result B) = has_bit_and s (.enum A) (.enum B) ∧
    (enable_bit_enum_and s A (.enum B) = true → A.underlying.bits < B.underlying.bits →
      has_bit_and s (.enum A) (.enum B) = false ∧
        has_bit_and_not s (.enum A) (.enum B) = false) := by
  have he : has_bit_and_not s (.enum A) (.enum B) = has_bit_and s (.enum A) (.enum B) := by
    rw [has_bit_and_not_eq, h, has_bit_and_result_eq, Bool.true_and]
  refine ⟨by rw [he], has_bit_and_result_eq s A B, ?_⟩
  intro _ hw
  have hn : has_bit_and s (.enum A) (.enum B) = false := by
    simp [has_bit_and, has_bit_and_enum, not_list_init_of_wider A B hw]
  exact ⟨hn, by rw [he, hn]⟩

/-- Witness for C20: the header's narrowing pair, with bit-not enabled for
`e32_bitand_flag`. -/
theorem and_not_available_iff_and_witness :
    has_bit_not example_types.narrowing_negated (.enum unit_test_detail.e32_bitand_flag)
        = true ∧
      enable_bit_enum_and example_types.narrowing_negated
        unit_test_detail.e16_bitand_composite (.enum unit_test_detail.e32_bitand_flag)
        = true ∧
      has_bit_and_not example_types.narrowing_negated
        (.enum unit_test_detail.e16_bitand_composite)
        (.enum unit_test_detail.e32_bitand_flag) = false :=
  ⟨by decide, by decide,
    ((and_not_available_iff_and example_types.narrowing_negated
      unit_test_detail.e16_bitand_composite unit_test_detail.e32_bitand_flag
      (by decide)).2.2 (by decide) (by decide)).2⟩

/-! ## The selected weapon of a player -/

/-- C21: for `player_selected_weapon<T>`, after the assignment of a value `v`
the functions `get_active()` and `get_delayed()` and the conversion to `T` all
return `v`; `set_delayed(w)` makes `get_delayed()` return `w` and leaves
`get_active()` and the converted value as they were, also right after an
assignment. -/
theorem selected_weapon_assign_and_set_delayed (T : Type) (p : player_selected_weapon T)
    (v w : T) :
    ((p.operator_assign v).get_active = v ∧
      (p.operator_assign v).get_delayed = v ∧
      (p.operator_assign v).operator_T = v) ∧
    ((p.set_delayed w).get_delayed = w ∧
      (p.set_delayed w).get_active = p.get_active ∧
      (p.set_delayed w).operator_T = p.operator_T) ∧
    (((p.operator_assign v).set_delayed w).get_active = v ∧
      ((p.operator_assign v).set_delayed w).operator_T = v ∧
      ((p.operator_assign v).set_delayed w).get_delayed = w) := by
  refine ⟨⟨?_, ?_, ?_⟩, ⟨?_, ?_, ?_⟩, ⟨?_, ?_, ?_⟩⟩ <;>
    simp [player_selected_weapon.operator_assign, player_selected_weapon.set_delayed,
      player_selected_weapon.get_active, player_selected_weapon.get_delayed,
      player_selected_weapon.operator_T]

end dcx
